import Mathlib

/-!
A shallow embedding of the component lifecycle core of the player UI library
(`src/js/component.js`): the `Component` tree node with its element, child
list and indices, ready queue, cross-component event wiring, disposal-scoped
timers and the process-wide component name registry.

Utility modules that `component.js` imports but whose sources are not part of
this repository snapshot (`utils/events.js`, `utils/fn.js`, `utils/dom.js`,
`utils/merge-options.js`, `utils/to-title-case.js`, `utils/guid.js`, and the
host environment's timer queue) are modelled from the specification; each such
definition carries a doc comment beginning `Modelled from the spec:`.

Machine state is explicit: components, DOM elements, platform timers and the
registry live in an explicit state record `St`, and every effectful operation
of the source is a function `... → St → Except Err ...`.  JavaScript
exceptions (dereferencing the element of an already-disposed component, and
similar fail-fast situations the spec prescribes in §4.4) are `Err.thrown`;
recursion through the child tree and through event bubbling is fueled, and
exhausted fuel is the distinct outcome `Err.nofuel`.  User-supplied callbacks
are opaque: they are identified by a numeric id, and invoking one appends
`Ev.invoke` to the observable log, so "handler fn fires" is log membership.
-/

/-- Identity tag carried by every wrapped handler.  Modelled from the spec:
the Event Binder wraps handlers and "the wrapper is tagged with a stable
identity derived from the original handler"; the Resource Tracker keys its
cleanup listeners "by a synthetic identifier built from the timer id"
(`vjs-timeout-${id}` / `vjs-interval-${id}` in the source). -/
inductive JsGuid where
  | num (n : Nat)
  | timeoutG (tid : Nat)
  | intervalG (tid : Nat)
  deriving DecidableEq, Repr

/-- Observable events of a run: user-callback invocations, event dispatches,
deprecation warnings, and the teardown steps of `dispose` in the order the
source performs them. -/
inductive Ev where
  | invoke (fnId : Nat)
  | trig (el : Nat) (ty : String)
  | warnE (msg : String)
  | childrenNulled (c : Nat)
  | offAll (el : Nat)
  | detached (el : Nat)
  | dataRemoved (el : Nat)
  | elNulled (c : Nat)
  deriving DecidableEq, Repr

/-- `Ev.invoke` recognizer, used to state which log entries a phase can add. -/
def Ev.isInvoke : Ev → Bool
  | .invoke _ => true
  | _ => false

/-- Run outcome other than success: a JavaScript exception (`thrown`) or
exhausted recursion fuel (`nofuel`). -/
inductive Err where
  | thrown
  | nofuel
  deriving DecidableEq, Repr

/-- The target of a foreign subscription in `Component.on(first, ...)`:
either a raw DOM element (`first.nodeName` branch) or another component
(`typeof first.on === 'function'` branch). -/
inductive EvTarget where
  | elemT (e : Nat)
  | compT (c : Nat)
  deriving DecidableEq, Repr

/-- The behaviour of a listener stored on an element.  `user` is an opaque
caller-supplied handler (bound to its component by `Fn.bind`; invoking it
only logs).  The other constructors are the closures `component.js` itself
creates: `removeOnDispose` and `cleanRemover` from `Component.on`'s foreign
branch (component.js:574,584), and the timer cleanup closures from
`Component.setTimeout` / `Component.setInterval` (component.js:1090,1129). -/
inductive HandlerBody where
  | user (fnId : Nat)
  | removeOnDispose (self : Nat) (target : EvTarget) (ty : String) (g : JsGuid)
  | cleanRemover (self : Nat) (g : JsGuid)
  | timeoutDispose (owner : Nat) (tid : Nat)
  | intervalDispose (owner : Nat) (tid : Nat)
  deriving DecidableEq, Repr

/-- A listener as stored in an element's per-element event data: its guid tag
plus its behaviour. -/
structure Listener where
  guid : JsGuid
  body : HandlerBody
  deriving DecidableEq, Repr

/-- A platform timer created by `window.setTimeout` / `window.setInterval`.
Modelled from the spec (§5): the host queue holds the bound callback; an
inactive timer never fires. -/
structure Timer where
  fnId : Nat
  repeating : Bool
  active : Bool
  deriving DecidableEq, Repr

/-- A DOM element: its DOM parent, its optional per-element event data (the
bookkeeping `Dom.removeElData` releases, holding the listener lists per event
type in registration order), and its `id` attribute. -/
structure Elem where
  parent : Option Nat
  data : Option (List (String × List Listener))
  idAttr : Option String
  deriving DecidableEq, Repr

/-- JavaScript option values, as far as the component core inspects them:
plain objects (ordered key/value fields), arrays, booleans, `null`, numbers,
strings, and element references (the `el` option). -/
inductive JVal where
  | objv (fields : List (String × JVal))
  | arrv (items : List JVal)
  | boolv (b : Bool)
  | nullv
  | numv (n : Int)
  | strv (s : String)
  | elv (e : Nat)

/-- A component type stored in the name registry.  Registered values are
constructor functions in the source, hence always truthy; the model keeps the
prototype-level default options the constructor deep-copies (line 57) and
constructs every registered type with the base `Component` behaviour (the
concrete widget subclasses are outside the modelled core). -/
structure CompType where
  tag : Nat
  defaults : JVal

/-- The owner reference a component is constructed with (`player` argument):
an external owner exposing at most an `id()` accessor, or another component.
Modelled from the spec (§6): "`owner` may be any object exposing `id()`". -/
inductive PRef where
  | ext (idStr : Option String)
  | compR (c : Nat)

/-- A component: the fields of `Component` that the lifecycle core reads and
writes (component.js:47–98).  `children_`, `childIndex_` and
`childNameIndex_` are `Option` because `dispose` nulls them; index entries
are `Option Nat` because `removeChild` stores JavaScript `null` into them. -/
structure Comp where
  id_ : String
  name_ : Option String
  el_ : Option Nat
  contentEl_ : Option Nat
  player_ : Option PRef
  options_ : JVal
  children_ : Option (List Nat)
  childIndex_ : Option (List (String × Option Nat))
  childNameIndex_ : Option (List (String × Option Nat))
  isReady_ : Bool
  readyQueue_ : Option (List Nat)

/-- The machine state: the component heap, the DOM element heap, the platform
timer table with its id counter, fresh-handle counters, the observable log,
and the two process-wide name tables (`Component.components_`, which starts
out absent, and the deprecated `window.videojs` namespace). -/
structure St where
  comps : List (Nat × Comp)
  elems : List (Nat × Elem)
  timers : List (Nat × Timer)
  nextTid : Nat
  nextEl : Nat
  nextComp : Nat
  nextGuid : Nat
  log : List Ev
  registry : Option (List (String × CompType))
  videojs : Option (List (String × CompType))

/-- First-match association-list lookup (JavaScript object property read;
keys are unique because `aset` replaces in place). -/
def alookup {κ α : Type} [DecidableEq κ] : List (κ × α) → κ → Option α
  | [], _ => none
  | (k', v) :: rest, k => if k' = k then some v else alookup rest k

/-- Association-list write: replace in place when the key exists (JavaScript
property writes keep the original insertion position), append otherwise. -/
def aset {κ α : Type} [DecidableEq κ] : List (κ × α) → κ → α → List (κ × α)
  | [], k, v => [(k, v)]
  | (k', v') :: rest, k, v =>
    if k' = k then (k, v) :: rest else (k', v') :: aset rest k v

/-- Append one observable event to the log. -/
def logE (s : St) (e : Ev) : St := { s with log := s.log ++ [e] }

/-- JavaScript truthiness of an option value. -/
def jsTruthy : JVal → Bool
  | .objv _ => true
  | .arrv _ => true
  | .boolv b => b
  | .nullv => false
  | .numv n => n ≠ 0
  | .strv s => s ≠ ""
  | .elv _ => true

/-- JavaScript string coercion of an option value, as it happens when a value
is used as a property key or interpolated (approximated for the non-string
shapes, which the component core never feeds meaningful values of). -/
def jStr : JVal → String
  | .objv _ => "[object Object]"
  | .arrv _ => "[array]"
  | .boolv b => cond b "true" "false"
  | .nullv => "null"
  | .numv n => toString n
  | .strv s => s
  | .elv _ => "[object Element]"

/-- Field read on a value that may not be a plain object (reads on non-objects
yield `undefined`, i.e. `none`). -/
def jlookupV : JVal → String → Option JVal
  | .objv fs, k => alookup fs k
  | _, _ => none

/-- Property write on an option value.  Writing a property of a non-object
primitive is a silent no-op in (sloppy-mode) JavaScript, which
`addChild`'s `options.name = componentName` (component.js:356) relies on. -/
def setFieldJ : JVal → String → JVal → JVal
  | .objv fs, k, v => .objv (aset fs k v)
  | o, _, _ => o

mutual

/-- Modelled from the spec (§4.3, Options Merger): deep merge of a base value
with overrides — "if both sides hold plain-object values they are merged
recursively (keys from overrides take precedence, unmatched keys from the
base survive); if either side's value is not a plain object, the overrides
value replaces the base value wholesale, including explicit `null`/`false`".
Fueled on object depth; the fuel always exceeds the depth of the option trees
the theorems touch. -/
def mergeJ : Nat → JVal → JVal → JVal
  | 0, _, b => b
  | fuel + 1, .objv a, .objv b =>
    .objv (mergeOver fuel a b ++ b.filter (fun kv => (alookup a kv.1).isNone))
  | _ + 1, _, b => b

/-- Merge pass over the base object's fields (in base order), recursing into
fields present on both sides. -/
def mergeOver : Nat → List (String × JVal) → List (String × JVal) →
    List (String × JVal)
  | 0, _, _ => []
  | _ + 1, [], _ => []
  | fuel + 1, (k, va) :: rest, b =>
    (k, match alookup b k with
        | some vb => mergeJ fuel va vb
        | none => va) :: mergeOver (fuel + 1) rest b

end

/-- Modelled from the spec: `toTitleCase` (utils/to-title-case.js) upper-cases
the first character, used by `addChild` to derive "a title-cased class-name"
from a child name. -/
def toTitleCase (s : String) : String :=
  match s.toList with
  | [] => ""
  | c :: rest => String.mk (c.toUpper :: rest)

/-- Lift an optional value, throwing (JavaScript `TypeError` on a null
dereference) when absent. -/
def ofOption {α : Type} : Option α → Except Err α
  | some a => .ok a
  | none => .error .thrown

/-- Read a component from the heap. -/
def getComp (c : Nat) (s : St) : Except Err Comp :=
  ofOption (alookup s.comps c)

/-- Read an element from the heap. -/
def getElemM (e : Nat) (s : St) : Except Err Elem :=
  ofOption (alookup s.elems e)

/-- Store back a component. -/
def putComp (c : Nat) (cp : Comp) (s : St) : St :=
  { s with comps := aset s.comps c cp }

/-- Store back an element. -/
def putElem (e : Nat) (el : Elem) (s : St) : St :=
  { s with elems := aset s.elems e el }

/-- Modelled from the spec (§4.4): `Events.on(elem, type, fn)` appends the
wrapped handler to the element's per-type listener list (creating the
per-element data on first use); listeners fire in registration order.
Subscribing on a null element fails fast. -/
def evOn (e : Nat) (ty : String) (l : Listener) (s : St) : Except Err St := do
  let el ← getElemM e s
  let d := el.data.getD []
  let d' := aset d ty ((alookup d ty).getD [] ++ [l])
  .ok (putElem e { el with data := some d' } s)

/-- Modelled from the spec (§4.4): `Events.off(elem, type?, fn?)` — with no
type, removes every listener bound to the element; with a type but no
handler, removes that type's listeners; with a handler, removes exactly the
listeners tagged with the handler's guid ("repeated `off` calls with the same
original handler reference correctly remove the same wrapper").  A missing
per-element data record makes it a no-op; a null element fails fast. -/
def evOff (e : Nat) (ty : Option String) (g : Option JsGuid) (s : St) :
    Except Err St := do
  let el ← getElemM e s
  match el.data with
  | none => .ok s
  | some d =>
    match ty with
    | none => .ok (putElem e { el with data := some [] } s)
    | some t =>
      match g with
      | none => .ok (putElem e { el with data := some (aset d t []) } s)
      | some gd =>
        let cur := (alookup d t).getD []
        .ok (putElem e
          { el with data := some (aset d t (cur.filter (fun l => l.guid ≠ gd))) } s)

/-- `Component.off(type?, fn?)` in its own-element form (component.js:628-629):
`Events.off(this.el_, first, second)`; dereferences `this.el_`. -/
def offM (c : Nat) (ty : Option String) (g : Option JsGuid) (s : St) :
    Except Err St := do
  let cp ← getComp c s
  let e ← ofOption cp.el_
  evOff e ty g s

/-- `Component.off(first, second, third)` in its foreign-target form
(component.js:630-648): re-binds the handler (same guid), removes the
`dispose` cleanup listener from this component's own element, then removes
both the wrapped listener and the mirror cleanup listener from the target. -/
def offCompM (c : Nat) (target : EvTarget) (ty : String) (g : JsGuid)
    (s : St) : Except Err St := do
  let cp ← getComp c s
  let e ← ofOption cp.el_
  let s ← evOff e (some "dispose") (some g) s
  match target with
  | .elemT te => do
    let s ← evOff te (some ty) (some g) s
    evOff te (some "dispose") (some g) s
  | .compT b => do
    let cb ← getComp b s
    let eb ← ofOption cb.el_
    let s ← evOff eb (some ty) (some g) s
    evOff eb (some "dispose") (some g) s

/-- `Component.clearTimeout` (component.js:1106-1116): cancel the platform
timer, then remove the cleanup listener keyed `vjs-timeout-${id}` from this
component's `dispose` listeners. -/
def clearTimeoutM (c : Nat) (tid : Nat) (s : St) : Except Err St := do
  let s := { s with
    timers := s.timers.map (fun kv =>
      (kv.1, if kv.1 = tid then { kv.2 with active := false } else kv.2)) }
  let cp ← getComp c s
  let e ← ofOption cp.el_
  evOff e (some "dispose") (some (.timeoutG tid)) s

/-- `Component.clearInterval` (component.js:1145-1155): same as
`clearTimeoutM` with the `vjs-interval-${id}` key. -/
def clearIntervalM (c : Nat) (tid : Nat) (s : St) : Except Err St := do
  let s := { s with
    timers := s.timers.map (fun kv =>
      (kv.1, if kv.1 = tid then { kv.2 with active := false } else kv.2)) }
  let cp ← getComp c s
  let e ← ofOption cp.el_
  evOff e (some "dispose") (some (.intervalG tid)) s

/-- Run one listener body: an opaque user handler logs its invocation; the
library-created closures perform the cleanup calls they were built from
(`Component.on`'s `removeOnDispose` and `cleanRemover`, and the timer
`disposeFn`s). -/
def interpBody : HandlerBody → St → Except Err St
  | .user f, s => .ok (logE s (.invoke f))
  | .removeOnDispose self target ty g, s => offCompM self target ty g s
  | .cleanRemover self g, s => offM self (some "dispose") (some g) s
  | .timeoutDispose owner tid, s => clearTimeoutM owner tid s
  | .intervalDispose owner tid, s => clearIntervalM owner tid s

/-- Fire a snapshot of listeners in registration order (the dispatcher
iterates a copy of the listener list, so removals during dispatch do not skip
listeners). -/
def runHandlers : List Listener → St → Except Err St
  | [], s => .ok s
  | l :: rest, s => do
    let s ← interpBody l.body s
    runHandlers rest s

/-- Modelled from the spec (§4.4): `Events.trigger(elem, event)` dispatches
synchronously on the element — listeners of the event's type fire in
registration order — then propagates to the DOM parent only when the event
was built with `bubbles` explicitly true (the lifecycle `dispose` event is
triggered with `bubbles: false`, and string-built events do not bubble).
Dispatching on a null element fails fast. -/
def evTrigger : Nat → Nat → String → Bool → St → Except Err St
  | 0, _, _, _, _ => .error .nofuel
  | fuel + 1, e, ty, bub, s => do
    let el ← getElemM e s
    let hs := (el.data.map (fun d => (alookup d ty).getD [])).getD []
    let s := logE s (.trig e ty)
    let s ← runHandlers hs s
    if bub then
      let el₁ ← getElemM e s
      match el₁.parent with
      | some p => evTrigger fuel p ty bub s
      | none => .ok s
    else .ok s

/-- `Component.trigger(event)` (component.js:704-707): dispatch on this
component's element. -/
def triggerM (fuel : Nat) (c : Nat) (ty : String) (bub : Bool) (s : St) :
    Except Err St := do
  let cp ← getComp c s
  let e ← ofOption cp.el_
  evTrigger fuel e ty bub s

/-- `Component.on(type, handler)` in its own-element form
(component.js:564-565): `Events.on(this.el_, type, Fn.bind(this, handler))`;
the bound wrapper keeps the handler's stable guid. -/
def onM (c : Nat) (ty : String) (fnId : Nat) (s : St) : Except Err St := do
  let cp ← getComp c s
  let e ← ofOption cp.el_
  evOn e ty { guid := .num fnId, body := .user fnId } s

/-- `Component.on(first, second, third)` in its foreign-target form
(component.js:568-601): wrap the handler (guid preserved), register
`removeOnDispose` on this component's own `dispose`, then add the wrapped
listener and the `cleanRemover` mirror listener on the target (element
targets via `Events.on`, component targets via the target's own `on`). -/
def onCompM (c : Nat) (target : EvTarget) (ty : String) (fnId : Nat)
    (s : St) : Except Err St := do
  let g := JsGuid.num fnId
  let cp ← getComp c s
  let e ← ofOption cp.el_
  let s ← evOn e "dispose" { guid := g, body := .removeOnDispose c target ty g } s
  match target with
  | .elemT te => do
    let s ← evOn te ty { guid := g, body := .user fnId } s
    evOn te "dispose" { guid := g, body := .cleanRemover c g } s
  | .compT b => do
    let cb ← getComp b s
    let eb ← ofOption cb.el_
    let s ← evOn eb ty { guid := g, body := .user fnId } s
    evOn eb "dispose" { guid := g, body := .cleanRemover c g } s

/-- `Component.setTimeout(fn, timeout)` (component.js:1084-1099): bind the
callback, create the platform timer, then register the cleanup listener
keyed `vjs-timeout-${id}` on this component's `dispose` event.  Returns the
timer id. -/
def setTimeoutM (c : Nat) (fnId : Nat) (_delay : Nat) (s : St) :
    Except Err (Nat × St) := do
  let tid := s.nextTid
  let s := { s with
    timers := aset s.timers tid { fnId := fnId, repeating := false, active := true },
    nextTid := tid + 1 }
  let cp ← getComp c s
  let e ← ofOption cp.el_
  let s ← evOn e "dispose" { guid := .timeoutG tid, body := .timeoutDispose c tid } s
  .ok (tid, s)

/-- `Component.setInterval(fn, interval)` (component.js:1124-1138): same as
`setTimeoutM` with a repeating platform timer and the `vjs-interval-${id}`
key. -/
def setIntervalM (c : Nat) (fnId : Nat) (_delay : Nat) (s : St) :
    Except Err (Nat × St) := do
  let tid := s.nextTid
  let s := { s with
    timers := aset s.timers tid { fnId := fnId, repeating := true, active := true },
    nextTid := tid + 1 }
  let cp ← getComp c s
  let e ← ofOption cp.el_
  let s ← evOn e "dispose" { guid := .intervalG tid, body := .intervalDispose c tid } s
  .ok (tid, s)

/-- Whether platform timer `tid` is pending. -/
def timerActive (tid : Nat) (s : St) : Bool :=
  ((alookup s.timers tid).map (·.active)).getD false

/-- Modelled from the spec (§5): one turn of the host's timer queue — an
active timer's bound callback is invoked (a one-shot timer is then spent, a
repeating one stays active); a cancelled or unknown timer does nothing. -/
def fireTimer (tid : Nat) (s : St) : St :=
  match alookup s.timers tid with
  | some t =>
    if t.active then
      let s := logE s (.invoke t.fnId)
      if t.repeating then s
      else { s with
        timers := s.timers.map (fun kv =>
          (kv.1, if kv.1 = tid then { kv.2 with active := false } else kv.2)) }
    else s
  | none => s

/-- `Component.registerComponent(name, comp)` (component.js:1157-1164):
create the registry on first use, then store the type under the name. -/
def registerComponentM (nm : String) (ty : CompType) (s : St) : St :=
  { s with registry := some (aset (s.registry.getD []) nm ty) }

/-- Warning text logged when the deprecated global-namespace fallback of
`getComponent` resolves a name (component.js:1172). -/
def globalFallbackWarn : String :=
  "component added to the videojs object instead of videojs.registerComponent"

/-- `Component.getComponent(name)` (component.js:1166-1175): look the name up
in `Component.components_` first; otherwise fall back to the deprecated
`window.videojs` namespace, logging a warning when that fallback resolves;
otherwise return nothing. -/
def getComponentM (nm : String) (s : St) : Option CompType × St :=
  match s.registry with
  | some r =>
    match alookup r nm with
    | some ty => (some ty, s)
    | none =>
      match s.videojs with
      | some vj =>
        match alookup vj nm with
        | some ty => (some ty, logE s (.warnE globalFallbackWarn))
        | none => (none, s)
      | none => (none, s)
  | none =>
    match s.videojs with
    | some vj =>
      match alookup vj nm with
      | some ty => (some ty, logE s (.warnE globalFallbackWarn))
      | none => (none, s)
    | none => (none, s)

/-- `Component.ready(fn)` (component.js:718-728): with a callback, invoke it
synchronously when the component is already ready, otherwise append it to the
ready queue (creating the queue on first use). -/
def readyM (c : Nat) (fn : Option Nat) (s : St) : Except Err St :=
  match fn with
  | none => .ok s
  | some f => do
    let cp ← getComp c s
    if cp.isReady_ then .ok (logE s (.invoke f))
    else .ok (putComp c
      { cp with readyQueue_ := some (cp.readyQueue_.getD [] ++ [f]) } s)

/-- `Component.triggerReady()` (component.js:735-752): mark the component
ready; when the queue exists and is non-empty, invoke every queued callback
in registration order, reset the queue, and trigger a single `ready` event on
the component's element. -/
def triggerReadyM (fuel : Nat) (c : Nat) (s : St) : Except Err St := do
  let cp ← getComp c s
  let s := putComp c { cp with isReady_ := true } s
  match cp.readyQueue_ with
  | some q =>
    if q.isEmpty then .ok s
    else do
      let s := q.foldl (fun s f => logE s (.invoke f)) s
      let cp₁ ← getComp c s
      let s := putComp c { cp₁ with readyQueue_ := some [] } s
      let cp₂ ← getComp c s
      let e ← ofOption cp₂.el_
      evTrigger fuel e "ready" false s
  | none => .ok s

/-- `player && player.id && player.id() || 'no_player'` (component.js:68):
the owner's id used as prefix when generating a component id.  Modelled
owners are `PRef.ext` (an external object exposing at most `id()`) or another
component. -/
def playerIdOf (pl : Option PRef) (s : St) : String :=
  match pl with
  | none => "no_player"
  | some (.ext none) => "no_player"
  | some (.ext (some i)) => if i = "" then "no_player" else i
  | some (.compR c) =>
    match alookup s.comps c with
    | some cp => if cp.id_ = "" then "no_player" else cp.id_
    | none => "no_player"

/-- `Component.enableTouchActivity` (component.js:1046-1076).  Its first
statement returns unless `this.player()` exposes `reportUserActivity`.
Modelled from the spec (§6): owners "may be any object exposing `id()`" —
the `Player` type that carries `reportUserActivity` is outside this
repository's source — so the guard always returns early and the touch
listeners are never installed. -/
def enableTouchActivityM (_c : Nat) (s : St) : St := s

/-- Tail of `Component.addChild` shared by the name and instance forms
(component.js:369-390): push onto `children_`, index by the child's id,
index by `componentName || component.name()` when that is truthy, and append
the child's element (when it has one) to this component's content element. -/
def addChildFinish (p cid : Nat) (givenName : Option String) (s : St) :
    Except Err (Nat × St) := do
  let cp ← getComp p s
  let l ← ofOption cp.children_
  let s := putComp p { cp with children_ := some (l ++ [cid]) } s
  let child ← getComp cid s
  let cp₁ ← getComp p s
  let ix ← ofOption cp₁.childIndex_
  let s := putComp p { cp₁ with childIndex_ := some (aset ix child.id_ (some cid)) } s
  let fallback : Option String := match child.name_ with
    | some cn => if cn = "" then none else some cn
    | none => none
  let nmq : Option String := match givenName with
    | some n => if n = "" then fallback else some n
    | none => fallback
  let s ← match nmq with
    | some n => do
      let cp₂ ← getComp p s
      let nix ← ofOption cp₂.childNameIndex_
      pure (putComp p { cp₂ with childNameIndex_ := some (aset nix n (some cid)) } s)
    | none => pure s
  match child.el_ with
  | some ce => do
    let cp₃ ← getComp p s
    let pe ← ofOption (cp₃.contentEl_ <|> cp₃.el_)
    let cel ← getElemM ce s
    .ok (cid, putElem ce { cel with parent := some pe } s)
  | none => .ok (cid, s)

mutual

/-- The `Component` constructor (component.js:47-98): deep-copy the
prototype defaults, merge the caller's options, resolve or generate the id,
resolve the name, adopt or create the backing element, initialize the child
containers, instantiate declared children (unless suppressed), register the
ready callback, and enable touch-activity reporting (a no-op for modelled
owners, see `enableTouchActivityM`).  Returns the fresh component handle. -/
def constructM : Nat → Option PRef → JVal → Option JVal → Option Nat → St →
    Except Err (Nat × St)
  | 0, _, _, _, _, _ => .error .nofuel
  | fuel + 1, pl, defaults, opts, rdy, s => do
    let o0 := mergeJ (fuel + 1) (.objv []) defaults
    let o := match opts with
      | some ov => if jsTruthy ov then mergeJ (fuel + 1) o0 ov else o0
      | none => o0
    let id1 : Option String := match jlookupV o "id" with
      | some v => if jsTruthy v then some (jStr v) else none
      | none => none
    let id2 : Option String := match id1 with
      | some i => some i
      | none =>
        match jlookupV o "el" with
        | some (.elv e) =>
          match alookup s.elems e with
          | some el =>
            match el.idAttr with
            | some a => if a = "" then none else some a
            | none => none
          | none => none
        | _ => none
    let idRes : String × St := match id2 with
      | some i => (i, s)
      | none => (playerIdOf pl s ++ "_component_" ++ toString s.nextGuid,
                 { s with nextGuid := s.nextGuid + 1 })
    let idStr := idRes.1
    let s := idRes.2
    let nameV : Option String := match jlookupV o "name" with
      | some v => if jsTruthy v then some (jStr v) else none
      | none => none
    let mkEl : Option Nat × St :=
      match jlookupV o "createEl" with
      | some (.boolv false) => (none, s)
      | _ => (some s.nextEl,
          { s with
            elems := aset s.elems s.nextEl
              { parent := none, data := none, idAttr := none },
            nextEl := s.nextEl + 1 })
    let elRes : Except Err (Option Nat × St) := match jlookupV o "el" with
      | some (.elv e) => .ok (some e, s)
      | some v => if jsTruthy v then .error .thrown else .ok mkEl
      | none => .ok mkEl
    let er ← elRes
    let elOpt := er.1
    let s := er.2
    let cid := s.nextComp
    let cp : Comp :=
      { id_ := idStr, name_ := nameV, el_ := elOpt, contentEl_ := none,
        player_ := pl, options_ := o, children_ := some [],
        childIndex_ := some [], childNameIndex_ := some [],
        isReady_ := false, readyQueue_ := none }
    let s := { putComp cid cp s with nextComp := cid + 1 }
    let s ← match jlookupV o "initChildren" with
      | some (.boolv false) => pure s
      | _ => initChildrenM fuel cid s
    let s ← readyM cid rdy s
    let s := match jlookupV o "reportTouchActivity" with
      | some (.boolv false) => s
      | _ => enableTouchActivityM cid s
    .ok (cid, s)

/-- `Component.initChildren` (component.js:466-518): walk the merged
`children` option — an array of names / name-bearing objects, or a mapping
from names to per-child options — and hand each entry to `handleAdd`. -/
def initChildrenM : Nat → Nat → St → Except Err St
  | 0, _, _ => .error .nofuel
  | fuel + 1, c, s => do
    let cp ← getComp c s
    match jlookupV cp.options_ "children" with
    | none => .ok s
    | some chv =>
      if jsTruthy chv then
        match chv with
        | .arrv items => initArrList fuel c items s
        | .objv fs => initObjList fuel c fs s
        | _ => .ok s
      else .ok s

/-- The `Object.getOwnPropertyNames(children).forEach` loop of
`initChildren` (component.js:513-515), in insertion order. -/
def initObjList : Nat → Nat → List (String × JVal) → St → Except Err St
  | 0, _, _, _ => .error .nofuel
  | _ + 1, _, [], s => .ok s
  | fuel + 1, c, (k, v) :: rest, s => do
    let s ← handleAdd fuel c k v s
    initObjList fuel c rest s

/-- The array-form loop of `initChildren` (component.js:494-511): a string
entry is a name with empty options; an object entry supplies its own `name`.
(Array entries of any other shape are accepted misconfigurations the
modelled core skips.) -/
def initArrList : Nat → Nat → List JVal → St → Except Err St
  | 0, _, _, _ => .error .nofuel
  | _ + 1, _, [], s => .ok s
  | fuel + 1, c, item :: rest, s => do
    let s ← match item with
      | .strv nm => handleAdd fuel c nm (.objv []) s
      | .objv fs =>
        match alookup fs "name" with
        | some (.strv nm) => handleAdd fuel c nm (.objv fs) s
        | _ => .ok s
      | _ => .ok s
    initArrList fuel c rest s

/-- `handleAdd` inside `initChildren` (component.js:472-491): a same-named
top-level parent option overrides the child's options; an override value of
`false` (and only `false` — the `===` comparison, component.js:482) opts the
child out; anything else is handed to `addChild`. -/
def handleAdd : Nat → Nat → String → JVal → St → Except Err St
  | 0, _, _, _, _ => .error .nofuel
  | fuel + 1, c, nm, opts0, s => do
    let cp ← getComp c s
    let opts := match jlookupV cp.options_ nm with
      | some pov => pov
      | none => opts0
    match opts with
    | .boolv false => .ok s
    | _ => do
      let r ← addChildM fuel c (.inl nm) opts s
      .ok r.2

/-- `Component.addChild(child, options)` (component.js:332-391): a string
child names a type — falsy options become `{}`, `true` options warn and
become `{}`, the class name is `options.componentClass` or the title-cased
name, `options.name` is set to the child name, the type is resolved through
`getComponent` (an unresolvable name makes the `new` expression throw) and
constructed with this component's owner (or this component itself for a
root); an instance child is adopted as-is.  Both forms finish through
`addChildFinish`. -/
def addChildM : Nat → Nat → Sum String Nat → JVal → St → Except Err (Nat × St)
  | 0, _, _, _, _ => .error .nofuel
  | fuel + 1, p, .inl nm, opts0, s => do
    let opts1 := if jsTruthy opts0 then opts0 else .objv []
    let wr : JVal × St := match opts1 with
      | .boolv true => (.objv [], logE s (.warnE "child-options-true-deprecated"))
      | o => (o, s)
    let opts2 := wr.1
    let s := wr.2
    let cls := match jlookupV opts2 "componentClass" with
      | some v => if jsTruthy v then jStr v else toTitleCase nm
      | none => toTitleCase nm
    let opts3 := setFieldJ opts2 "name" (.strv nm)
    let gr := getComponentM cls s
    let s := gr.2
    match gr.1 with
    | none => .error .thrown
    | some ct => do
      let cp ← getComp p s
      let pl : Option PRef := match cp.player_ with
        | some pr => some pr
        | none => some (.compR p)
      let r ← constructM fuel pl ct.defaults (some opts3) none s
      addChildFinish p r.1 (some nm) r.2
  | _ + 1, p, .inr cid, _, s => addChildFinish p cid none s

end

/-- `Component.getChildById(id)` (component.js:291-293): read the id index
(a read on the nulled index of a disposed component throws). -/
def getChildByIdM (c : Nat) (idk : String) (s : St) : Except Err (Option Nat) := do
  let cp ← getComp c s
  let ix ← ofOption cp.childIndex_
  .ok ((alookup ix idk).getD none)

/-- `Component.getChild(name)` (component.js:300-302): read the name index. -/
def getChildM (c : Nat) (nm : String) (s : St) : Except Err (Option Nat) := do
  let cp ← getComp c s
  let nix ← ofOption cp.childNameIndex_
  .ok ((alookup nix nm).getD none)

/-- Index of the last occurrence of `x` in `l` — the entry that
`removeChild`'s reverse-scanning splice loop (component.js:410-416)
removes. -/
def findLastIdx : List Nat → Nat → Option Nat
  | [], _ => none
  | y :: rest, x =>
    match findLastIdx rest x with
    | some i => some (i + 1)
    | none => if y = x then some 0 else none

/-- `Component.removeChild(component)` (component.js:399-430): resolve a name
through the name index; return silently when nothing resolved or the child
list is gone; splice out the single entry the reverse scan finds first;
store `null` over both index entries; detach the child's element only when
its current DOM parent is this component's content element. -/
def removeChildM (p : Nat) (childArg : Sum String Nat) (s : St) :
    Except Err St := do
  let cp ← getComp p s
  let co : Option Nat ← match childArg with
    | .inl nm => do
      let nix ← ofOption cp.childNameIndex_
      pure ((alookup nix nm).getD none)
    | .inr cid => pure (some cid)
  match co, cp.children_ with
  | none, _ => .ok s
  | some _, none => .ok s
  | some cid, some l =>
    match findLastIdx l cid with
    | none => .ok s
    | some i => do
      let s := putComp p { cp with children_ := some (l.eraseIdx i) } s
      let child ← getComp cid s
      let cp₁ ← getComp p s
      let ix ← ofOption cp₁.childIndex_
      let s := putComp p { cp₁ with childIndex_ := some (aset ix child.id_ none) } s
      let cp₂ ← getComp p s
      let nix ← ofOption cp₂.childNameIndex_
      let nameKey := child.name_.getD "null"
      let s := putComp p { cp₂ with childNameIndex_ := some (aset nix nameKey none) } s
      match child.el_ with
      | none => .ok s
      | some ce => do
        let cel ← getElemM ce s
        let cp₃ ← getComp p s
        let pce := cp₃.contentEl_ <|> cp₃.el_
        if cel.parent = pce then
          match pce with
          | some _ => .ok (putElem ce { cel with parent := none } s)
          | none => .error .thrown
        else .ok s

mutual

/-- `Component.dispose` (component.js:109-136), in the source's strict
order: (1) trigger the non-bubbling `dispose` event on this component's own
element; (2) dispose every child, last to first, recursively; (3) null the
child list and both indices; (4) remove every listener from this component's
own element (`this.off()`); (5) detach the element from its DOM parent if
attached; (6) release the per-element data; (7) null the element
reference. -/
def disposeM : Nat → Nat → St → Except Err St
  | 0, _, _ => .error .nofuel
  | fuel + 1, c, s => do
    let cp ← getComp c s
    let e ← ofOption cp.el_
    let s ← evTrigger fuel e "dispose" false s
    let cp₁ ← getComp c s
    let s ← disposeKids fuel (cp₁.children_.getD []).reverse s
    let cp₂ ← getComp c s
    let cp₂n :=
      { cp₂ with
        children_ := none, childIndex_ := none, childNameIndex_ := none }
    let s := logE (putComp c cp₂n s) (.childrenNulled c)
    let cp₃ ← getComp c s
    let e₄ ← ofOption cp₃.el_
    let s ← evOff e₄ none none s
    let s := logE s (.offAll e₄)
    let cp₄ ← getComp c s
    let e₅ ← ofOption cp₄.el_
    let el ← getElemM e₅ s
    let s := match el.parent with
      | some _ => logE (putElem e₅ { el with parent := none } s) (.detached e₅)
      | none => s
    let cp₅ ← getComp c s
    let e₆ ← ofOption cp₅.el_
    let el₂ ← getElemM e₆ s
    let s := logE (putElem e₆ { el₂ with data := none } s) (.dataRemoved e₆)
    let cp₆ ← getComp c s
    .ok (logE (putComp c { cp₆ with el_ := none } s) (.elNulled c))

/-- The child-disposal loop of `dispose` (component.js:113-119), fed the
child list already reversed; every modelled child has a `dispose` method. -/
def disposeKids : Nat → List Nat → St → Except Err St
  | 0, _, _ => .error .nofuel
  | _ + 1, [], s => .ok s
  | fuel + 1, k :: rest, s => do
    let s ← disposeM fuel k s
    disposeKids fuel rest s

end

/-- A freshly created element: detached, no event data, no id attribute. -/
def freshElem : Elem := { parent := none, data := none, idAttr := none }

/-- A bare live component used to build scenario states: it owns element `e`,
has empty child containers and is not yet ready. -/
def mkComp (idStr : String) (e : Option Nat) : Comp :=
  { id_ := idStr, name_ := none, el_ := e, contentEl_ := none,
    player_ := none, options_ := .objv [], children_ := some [],
    childIndex_ := some [], childNameIndex_ := some [],
    isReady_ := false, readyQueue_ := none }

/-- The empty machine: no components, no elements, no timers, registry not
yet created (`Component.components_` starts out absent). -/
def emptySt : St :=
  { comps := [], elems := [], timers := [], nextTid := 0, nextEl := 0,
    nextComp := 0, nextGuid := 0, log := [], registry := none, videojs := none }

/-- Scenario state for the cross-component subscription claims: two live,
unrelated components `A` (handle 0, element 100) and `B` (handle 1, element
101), with no listeners anywhere. -/
def twoSt : St :=
  { emptySt with
    comps := [(0, mkComp "A" (some 100)), (1, mkComp "B" (some 101))],
    elems := [(100, freshElem), (101, freshElem)],
    nextEl := 200, nextComp := 2 }

/-- Success recognizer for run outcomes. -/
def exOk {α : Type} : Except Err α → Bool
  | .ok _ => true
  | .error _ => false

/-- How many times opaque callback `f` was invoked in a log. -/
def invokeCount (f : Nat) (l : List Ev) : Nat :=
  (l.filter (fun ev => ev = Ev.invoke f)).length

/-- How many times opaque callback `f` was invoked in a run's final log
(an errored run counts zero). -/
def invokeCountR (f : Nat) (r : Except Err St) : Nat :=
  match r with
  | .ok s => invokeCount f s.log
  | .error _ => 0

/-- Every live component handle lies below the fresh-handle counter; the
constructor's fresh handles then never collide with existing components. -/
def compsBounded (s : St) : Prop :=
  ∀ k, (alookup s.comps k).isSome → k < s.nextComp

/-- The state after `Component.registerComponent('Component', Component)`
(component.js:1218, executed at module load) on a given state. -/
def registerBase (s : St) : St :=
  registerComponentM "Component" { tag := 0, defaults := .objv [] } s

/-- Both states agree on the log, the component heap, the timer table and the
fresh-handle counters: the parts of the state an element-level event
operation leaves untouched. -/
def StFrame (s s' : St) : Prop :=
  s'.log = s.log ∧ s'.comps = s.comps ∧ s'.timers = s.timers ∧
    s'.nextTid = s.nextTid ∧ s'.nextComp = s.nextComp

/-- Like `StFrame` but without the timer table: what the timer-cancelling
operations preserve. -/
def StFrameT (s s' : St) : Prop :=
  s'.log = s.log ∧ s'.comps = s.comps ∧
    s'.nextTid = s.nextTid ∧ s'.nextComp = s.nextComp

/-- The log entries running one listener body appends: an opaque user handler
logs its invocation, the library cleanup closures log nothing. -/
def bodyLog : HandlerBody → List Ev
  | .user f => [Ev.invoke f]
  | _ => []

/-- Between two states, every component keeps its element reference unless it
was nulled (disposal is the only operation that ever reassigns `el_`, and it
only writes `null`). -/
def ElInv (s s' : St) : Prop :=
  ∀ k cp, alookup s.comps k = some cp →
    ∃ cp', alookup s'.comps k = some cp' ∧ (cp'.el_ = cp.el_ ∨ cp'.el_ = none)

/-- Scenario state for the `addChild` claims: a live parent `P` (handle 0,
element 100) and a registry holding the base `Component` type and a `Foo`
type. -/
def c8Base : St :=
  registerComponentM "Foo" { tag := 1, defaults := .objv [] }
    (registerBase
      { emptySt with
        comps := [(0, mkComp "P" (some 100))],
        elems := [(100, freshElem)],
        nextEl := 200, nextComp := 1 })

/-- Registry holding only a `Foo` type, for the `initChildren` scenarios. -/
def c6Reg : St := registerComponentM "Foo" { tag := 1, defaults := .objv [] } emptySt

/-- The prototype defaults of the `initChildren` scenario of the claim: one
declared child `foo` with default options `{x: 1}`. -/
def c6Defaults : JVal := .objv [("children", .objv [("foo", .objv [("x", .numv 1)])])]

/-- Component `A` with one queued ready callback (id 5), not yet ready. -/
def c4Queued : Comp := { mkComp "A" (some 100) with readyQueue_ := some [5] }

/-- `twoSt` with `A` holding a queued ready callback. -/
def c4QSt : St :=
  { twoSt with comps := [(0, c4Queued), (1, mkComp "B" (some 101))] }

/-- Component `A` already marked ready. -/
def c4Ready : Comp := { mkComp "A" (some 100) with isReady_ := true }

/-- `twoSt` with `A` already ready. -/
def c4RSt : St :=
  { twoSt with comps := [(0, c4Ready), (1, mkComp "B" (some 101))] }

/-- A named child (handle 1, element 101) attached under the parent below. -/
def c7Child : Comp := { mkComp "C1" (some 101) with name_ := some "c" }

/-- A parent holding `c7Child` in its child list and both indices. -/
def c7Parent : Comp :=
  { mkComp "A" (some 100) with
      children_ := some [1], childIndex_ := some [("C1", some 1)],
      childNameIndex_ := some [("c", some 1)] }

/-- Scenario state for the `removeChild` claim: `c7Parent` (handle 0) with
`c7Child` (handle 1) whose element 101 currently sits under the parent's
element 100. -/
def c7St : St :=
  { emptySt with
    comps := [(0, c7Parent), (1, c7Child)],
    elems := [(100, freshElem), (101, { freshElem with parent := some 100 })],
    nextEl := 200, nextComp := 2 }
theorem expure {α : Type} (a : α) : (pure a : Except Err α) = .ok a := rfl

theorem exbind_ok {α β : Type} {x : Except Err α} {f : α → Except Err β} {b : β} :
    x >>= f = .ok b ↔ ∃ a, x = .ok a ∧ f a = .ok b := by
  cases x with
  | ok a => simp [Bind.bind, Except.bind]
  | error e => simp [Bind.bind, Except.bind]

theorem alookup_aset_self {κ α : Type} [DecidableEq κ] (l : List (κ × α)) (k : κ) (v : α) :
    alookup (aset l k v) k = some v := by
  induction l with
  | nil => simp [aset, alookup]
  | cons kv rest ih =>
    by_cases h : kv.1 = k
    · simp [aset, h, alookup]
    · simp [aset, h, alookup, ih]

theorem alookup_aset_ne {κ α : Type} [DecidableEq κ] (l : List (κ × α)) (k k' : κ) (v : α)
    (h : k' ≠ k) : alookup (aset l k v) k' = alookup l k' := by
  induction l with
  | nil => simp [aset, alookup, if_neg (Ne.symm h)]
  | cons kv rest ih =>
    obtain ⟨k0, v0⟩ := kv
    by_cases hk : k0 = k
    · subst hk
      simp [aset, alookup, if_neg (Ne.symm h)]
    · simp [aset, hk, alookup, ih]

theorem StFrame_refl {s : St} : StFrame s s := by simp [StFrame]

theorem StFrame_trans {s₁ s₂ s₃ : St} (h₁ : StFrame s₁ s₂) (h₂ : StFrame s₂ s₃) :
    StFrame s₁ s₃ := by
  obtain ⟨a, b, c, d, e⟩ := h₁
  obtain ⟨a', b', c', d', e'⟩ := h₂
  exact ⟨a'.trans a, b'.trans b, c'.trans c, d'.trans d, e'.trans e⟩

theorem StFrame_toT {s₁ s₂ : St} (h : StFrame s₁ s₂) : StFrameT s₁ s₂ :=
  ⟨h.1, h.2.1, h.2.2.2.1, h.2.2.2.2⟩

theorem StFrameT_refl {s : St} : StFrameT s s := by simp [StFrameT]

theorem StFrameT_trans {s₁ s₂ s₃ : St} (h₁ : StFrameT s₁ s₂) (h₂ : StFrameT s₂ s₃) :
    StFrameT s₁ s₃ := by
  obtain ⟨a, b, c, d⟩ := h₁
  obtain ⟨a', b', c', d'⟩ := h₂
  exact ⟨a'.trans a, b'.trans b, c'.trans c, d'.trans d⟩

theorem evOn_frame {e : Nat} {ty : String} {l : Listener} {s s' : St}
    (h : evOn e ty l s = .ok s') : StFrame s s' := by
  cases hx : alookup s.elems e with
  | none => simp [evOn, getElemM, ofOption, hx, Bind.bind, Except.bind] at h
  | some el =>
    simp [evOn, getElemM, ofOption, hx, Bind.bind, Except.bind] at h
    subst h
    simp [StFrame, putElem]

theorem evOff_frame {e : Nat} {ty : Option String} {g : Option JsGuid} {s s' : St}
    (h : evOff e ty g s = .ok s') : StFrame s s' := by
  cases hx : alookup s.elems e with
  | none => simp [evOff, getElemM, ofOption, hx, Bind.bind, Except.bind] at h
  | some el =>
    simp [evOff, getElemM, ofOption, hx, Bind.bind, Except.bind] at h
    cases hd : el.data with
    | none => rw [hd] at h; simp at h; subst h; exact StFrame_refl
    | some d =>
      rw [hd] at h
      cases ty with
      | none => simp at h; subst h; simp [StFrame, putElem]
      | some t =>
        cases g with
        | none => simp at h; subst h; simp [StFrame, putElem]
        | some gd => simp at h; subst h; simp [StFrame, putElem]

theorem offM_frame {c : Nat} {ty : Option String} {g : Option JsGuid} {s s' : St}
    (h : offM c ty g s = .ok s') : StFrame s s' := by
  simp only [offM] at h
  obtain ⟨cp, -, h⟩ := exbind_ok.mp h
  obtain ⟨e, -, h⟩ := exbind_ok.mp h
  exact evOff_frame h

theorem offCompM_frame {c : Nat} {target : EvTarget} {ty : String} {g : JsGuid} {s s' : St}
    (h : offCompM c target ty g s = .ok s') : StFrame s s' := by
  simp only [offCompM] at h
  obtain ⟨cp, -, h⟩ := exbind_ok.mp h
  obtain ⟨e, -, h⟩ := exbind_ok.mp h
  obtain ⟨s₁, h₁, h⟩ := exbind_ok.mp h
  cases target with
  | elemT te =>
    obtain ⟨s₂, h₂, h⟩ := exbind_ok.mp h
    exact StFrame_trans (StFrame_trans (evOff_frame h₁) (evOff_frame h₂)) (evOff_frame h)
  | compT b =>
    obtain ⟨cb, -, h⟩ := exbind_ok.mp h
    obtain ⟨eb, -, h⟩ := exbind_ok.mp h
    obtain ⟨s₂, h₂, h⟩ := exbind_ok.mp h
    exact StFrame_trans (StFrame_trans (evOff_frame h₁) (evOff_frame h₂)) (evOff_frame h)

theorem clearTimeoutM_frame {c tid : Nat} {s s' : St}
    (h : clearTimeoutM c tid s = .ok s') : StFrameT s s' := by
  simp only [clearTimeoutM] at h
  obtain ⟨cp, -, h⟩ := exbind_ok.mp h
  obtain ⟨e, -, h⟩ := exbind_ok.mp h
  exact StFrameT_trans (by simp [StFrameT]) (StFrame_toT (evOff_frame h))

theorem clearIntervalM_frame {c tid : Nat} {s s' : St}
    (h : clearIntervalM c tid s = .ok s') : StFrameT s s' := by
  simp only [clearIntervalM] at h
  obtain ⟨cp, -, h⟩ := exbind_ok.mp h
  obtain ⟨e, -, h⟩ := exbind_ok.mp h
  exact StFrameT_trans (by simp [StFrameT]) (StFrame_toT (evOff_frame h))

theorem alookup_deactMap_ne {tid x : Nat} (l : List (Nat × Timer)) (hx : x ≠ tid) :
    alookup (l.map (fun kv =>
      (kv.1, if kv.1 = tid then { kv.2 with active := false } else kv.2))) x
      = alookup l x := by
  induction l with
  | nil => simp [alookup]
  | cons kv rest ih =>
    obtain ⟨k, v⟩ := kv
    by_cases hk : k = tid
    · subst hk
      simp [alookup, if_neg (Ne.symm hx), ih]
    · simp [alookup, if_neg hk, ih]

theorem alookup_deactMap_self {tid : Nat} (l : List (Nat × Timer)) :
    alookup (l.map (fun kv =>
      (kv.1, if kv.1 = tid then { kv.2 with active := false } else kv.2))) tid
      = (alookup l tid).map (fun t => { t with active := false }) := by
  induction l with
  | nil => simp [alookup]
  | cons kv rest ih =>
    obtain ⟨k, v⟩ := kv
    by_cases hk : k = tid
    · subst hk
      simp [alookup, ih]
    · simp [alookup, if_neg hk, ih]

theorem timerActive_deact {tid x : Nat} {s s' : St}
    (ht : s'.timers = s.timers.map
      (fun kv => (kv.1, if kv.1 = tid then { kv.2 with active := false } else kv.2)))
    (hx : timerActive x s = false ∨ x = tid) : timerActive x s' = false := by
  by_cases hxt : x = tid
  · subst hxt
    simp only [timerActive, ht, alookup_deactMap_self]
    cases hl : alookup s.timers x with
    | none => simp
    | some t => simp
  · rcases hx with hx | hx
    · simpa [timerActive, ht, alookup_deactMap_ne _ hxt] using hx
    · exact absurd hx hxt

theorem clearTimeoutM_timers {c tid : Nat} {s s' : St}
    (h : clearTimeoutM c tid s = .ok s') :
    s'.timers = s.timers.map
      (fun kv => (kv.1, if kv.1 = tid then { kv.2 with active := false } else kv.2)) := by
  simp only [clearTimeoutM] at h
  obtain ⟨cp, -, h⟩ := exbind_ok.mp h
  obtain ⟨e, -, h⟩ := exbind_ok.mp h
  exact (evOff_frame h).2.2.1

theorem clearIntervalM_timers {c tid : Nat} {s s' : St}
    (h : clearIntervalM c tid s = .ok s') :
    s'.timers = s.timers.map
      (fun kv => (kv.1, if kv.1 = tid then { kv.2 with active := false } else kv.2)) := by
  simp only [clearIntervalM] at h
  obtain ⟨cp, -, h⟩ := exbind_ok.mp h
  obtain ⟨e, -, h⟩ := exbind_ok.mp h
  exact (evOff_frame h).2.2.1

theorem interpBody_comps {b : HandlerBody} {s s' : St}
    (h : interpBody b s = .ok s') : s'.comps = s.comps := by
  cases b with
  | user f => simp [interpBody] at h; subst h; simp [logE]
  | removeOnDispose a t ty g => exact (offCompM_frame h).2.1
  | cleanRemover a g => exact (offM_frame h).2.1
  | timeoutDispose o tid => exact (clearTimeoutM_frame h).2.1
  | intervalDispose o tid => exact (clearIntervalM_frame h).2.1

theorem interpBody_log {b : HandlerBody} {s s' : St}
    (h : interpBody b s = .ok s') : s'.log = s.log ++ bodyLog b := by
  cases b with
  | user f => simp [interpBody] at h; subst h; simp [logE, bodyLog]
  | removeOnDispose a t ty g => simp [(offCompM_frame h).1, bodyLog]
  | cleanRemover a g => simp [(offM_frame h).1, bodyLog]
  | timeoutDispose o tid => simp [(clearTimeoutM_frame h).1, bodyLog]
  | intervalDispose o tid => simp [(clearIntervalM_frame h).1, bodyLog]

theorem bodyLog_invoke {b : HandlerBody} : ∀ ev ∈ bodyLog b, ev.isInvoke = true := by
  cases b <;> simp [bodyLog, Ev.isInvoke]

theorem interpBody_timerOff {b : HandlerBody} {s s' : St} {x : Nat}
    (hx : timerActive x s = false) (h : interpBody b s = .ok s') :
    timerActive x s' = false := by
  cases b with
  | user f =>
    simp [interpBody] at h; subst h; simpa [timerActive, logE] using hx
  | removeOnDispose a t ty g =>
    simpa [timerActive, (offCompM_frame h).2.2.1] using hx
  | cleanRemover a g =>
    simpa [timerActive, (offM_frame h).2.2.1] using hx
  | timeoutDispose o tid =>
    exact timerActive_deact (clearTimeoutM_timers h) (Or.inl hx)
  | intervalDispose o tid =>
    exact timerActive_deact (clearIntervalM_timers h) (Or.inl hx)

theorem runHandlers_append (l₁ l₂ : List Listener) (s : St) :
    runHandlers (l₁ ++ l₂) s = runHandlers l₁ s >>= runHandlers l₂ := by
  induction l₁ generalizing s with
  | nil => simp [runHandlers, Bind.bind, Except.bind]
  | cons l rest ih =>
    simp only [List.cons_append, runHandlers]
    cases hb : interpBody l.body s with
    | ok s₁ => simp [Bind.bind, Except.bind, hb, ih]
    | error e => simp [Bind.bind, Except.bind, hb]

theorem runHandlers_comps {hs : List Listener} {s s' : St}
    (h : runHandlers hs s = .ok s') : s'.comps = s.comps := by
  induction hs generalizing s with
  | nil => simp [runHandlers] at h; subst h; rfl
  | cons l rest ih =>
    simp only [runHandlers] at h
    obtain ⟨s₁, h₁, h⟩ := exbind_ok.mp h
    exact (ih h).trans (interpBody_comps h₁)

theorem runHandlers_log {hs : List Listener} {s s' : St}
    (h : runHandlers hs s = .ok s') :
    ∃ t, s'.log = s.log ++ t ∧ ∀ ev ∈ t, ev.isInvoke = true := by
  induction hs generalizing s with
  | nil =>
    simp [runHandlers] at h; subst h
    exact ⟨[], by simp, by simp⟩
  | cons l rest ih =>
    simp only [runHandlers] at h
    obtain ⟨s₁, h₁, h⟩ := exbind_ok.mp h
    obtain ⟨t, ht, hinv⟩ := ih h
    refine ⟨bodyLog l.body ++ t, ?_, ?_⟩
    · simp [ht, interpBody_log h₁]
    · intro ev hev
      rcases List.mem_append.mp hev with hev | hev
      · exact bodyLog_invoke ev hev
      · exact hinv ev hev

theorem runHandlers_timerOff {hs : List Listener} {s s' : St} {x : Nat}
    (hx : timerActive x s = false) (h : runHandlers hs s = .ok s') :
    timerActive x s' = false := by
  induction hs generalizing s with
  | nil => simp [runHandlers] at h; subst h; exact hx
  | cons l rest ih =>
    simp only [runHandlers] at h
    obtain ⟨s₁, h₁, h⟩ := exbind_ok.mp h
    exact ih (interpBody_timerOff hx h₁) h

theorem evTrigger_comps {fuel : Nat} {e : Nat} {ty : String} {bub : Bool} {s s' : St}
    (h : evTrigger fuel e ty bub s = .ok s') : s'.comps = s.comps := by
  induction fuel generalizing e s with
  | zero => simp [evTrigger] at h
  | succ n ih =>
    simp only [evTrigger] at h
    obtain ⟨el, -, h⟩ := exbind_ok.mp h
    obtain ⟨s₁, h₁, h⟩ := exbind_ok.mp h
    have hc₁ : s₁.comps = s.comps := (runHandlers_comps h₁).trans (by simp [logE])
    cases bub with
    | false => simp at h; subst h; exact hc₁
    | true =>
      rw [if_pos rfl] at h
      obtain ⟨el₁, -, h⟩ := exbind_ok.mp h
      cases hp : el₁.parent with
      | some p => rw [hp] at h; exact (ih h).trans hc₁
      | none => rw [hp] at h; simp at h; subst h; exact hc₁

theorem evTrigger_timerOff {fuel : Nat} {e : Nat} {ty : String} {bub : Bool}
    {s s' : St} {x : Nat}
    (hx : timerActive x s = false) (h : evTrigger fuel e ty bub s = .ok s') :
    timerActive x s' = false := by
  induction fuel generalizing e s with
  | zero => simp [evTrigger] at h
  | succ n ih =>
    simp only [evTrigger] at h
    obtain ⟨el, -, h⟩ := exbind_ok.mp h
    obtain ⟨s₁, h₁, h⟩ := exbind_ok.mp h
    have hx₁ : timerActive x s₁ = false :=
      runHandlers_timerOff (by simpa [timerActive, logE] using hx) h₁
    cases bub with
    | false => simp at h; subst h; exact hx₁
    | true =>
      rw [if_pos rfl] at h
      obtain ⟨el₁, -, h⟩ := exbind_ok.mp h
      cases hp : el₁.parent with
      | some p => rw [hp] at h; exact ih hx₁ h
      | none => rw [hp] at h; simp at h; subst h; exact hx₁

theorem evTrigger_false_log {fuel : Nat} {e : Nat} {ty : String} {s s' : St}
    (h : evTrigger fuel e ty false s = .ok s') :
    ∃ t, s'.log = s.log ++ Ev.trig e ty :: t ∧ ∀ ev ∈ t, ev.isInvoke = true := by
  cases fuel with
  | zero => simp [evTrigger] at h
  | succ n =>
    simp only [evTrigger] at h
    obtain ⟨el, -, h⟩ := exbind_ok.mp h
    obtain ⟨s₁, h₁, h⟩ := exbind_ok.mp h
    simp at h
    subst h
    obtain ⟨t, ht, hinv⟩ := runHandlers_log h₁
    exact ⟨t, by simp [ht, logE], hinv⟩

theorem getComp_ok {c : Nat} {s : St} {cp : Comp} :
    getComp c s = .ok cp ↔ alookup s.comps c = some cp := by
  cases h : alookup s.comps c <;> simp [getComp, ofOption, h]

theorem ElInv_of_comps_eq {s s' : St} (h : s'.comps = s.comps) : ElInv s s' :=
  fun k cp hk => ⟨cp, by rw [h, hk], Or.inl rfl⟩

theorem ElInv_trans {s₁ s₂ s₃ : St} (h₁ : ElInv s₁ s₂) (h₂ : ElInv s₂ s₃) :
    ElInv s₁ s₃ := by
  intro k cp hk
  obtain ⟨cp', hk', he'⟩ := h₁ k cp hk
  obtain ⟨cp'', hk'', he''⟩ := h₂ k cp' hk'
  refine ⟨cp'', hk'', ?_⟩
  rcases he'' with he'' | he''
  · rw [he'']; exact he'
  · exact Or.inr he''

theorem dispose_main : ∀ fuel : Nat,
    (∀ {c : Nat} {s s' : St}, disposeM fuel c s = .ok s' →
      ElInv s s' ∧ (∃ t, s'.log = s.log ++ t) ∧
        (∀ x, timerActive x s = false → timerActive x s' = false)) ∧
    (∀ {l : List Nat} {s s' : St}, disposeKids fuel l s = .ok s' →
      ElInv s s' ∧ (∃ t, s'.log = s.log ++ t) ∧
        (∀ x, timerActive x s = false → timerActive x s' = false)) := by
  intro fuel
  induction fuel with
  | zero =>
    constructor
    · intro c s s' h; simp [disposeM] at h
    · intro l s s' h; simp [disposeKids] at h
  | succ n ih =>
    constructor
    · intro c s s' h
      simp only [disposeM] at h
      obtain ⟨cp, hcp, h⟩ := exbind_ok.mp h
      obtain ⟨e, -, h⟩ := exbind_ok.mp h
      obtain ⟨s₁, h₁, h⟩ := exbind_ok.mp h
      obtain ⟨cp₁, hcp₁, h⟩ := exbind_ok.mp h
      obtain ⟨s₂, h₂, h⟩ := exbind_ok.mp h
      obtain ⟨cp₂, hcp₂, h⟩ := exbind_ok.mp h
      obtain ⟨cp₃, hcp₃, h⟩ := exbind_ok.mp h
      obtain ⟨e₄, -, h⟩ := exbind_ok.mp h
      obtain ⟨s₄, h₄, h⟩ := exbind_ok.mp h
      obtain ⟨cp₄, hcp₄, h⟩ := exbind_ok.mp h
      obtain ⟨e₅, -, h⟩ := exbind_ok.mp h
      obtain ⟨el₅, -, h⟩ := exbind_ok.mp h
      obtain ⟨cp₅, hcp₅, h⟩ := exbind_ok.mp h
      obtain ⟨e₆, -, h⟩ := exbind_ok.mp h
      obtain ⟨el₆, -, h⟩ := exbind_ok.mp h
      obtain ⟨cp₆, hcp₆, h⟩ := exbind_ok.mp h
      simp only [Except.ok.injEq] at h
      subst h
      have f₄ := evOff_frame h₄
      have i₁ : ElInv s s₁ := ElInv_of_comps_eq (evTrigger_comps h₁)
      have i₂ : ElInv s₁ s₂ := (ih.2 h₂).1
      refine ⟨ElInv_trans (ElInv_trans i₁ i₂) ?_, ?_, ?_⟩
      · intro k cpk hk
        by_cases hkc : k = c
        · subst hkc
          refine ⟨{ cp₆ with el_ := none }, ?_, Or.inr rfl⟩
          cases hp : el₅.parent <;>
            simp [hp, logE, putComp, putElem, alookup_aset_self, f₄.2.1]
        · refine ⟨cpk, ?_, Or.inl rfl⟩
          cases hp : el₅.parent <;>
            simpa [hp, logE, putComp, putElem, f₄.2.1,
              alookup_aset_ne _ _ _ _ hkc] using hk
      · obtain ⟨t₁, ht₁, -⟩ := evTrigger_false_log h₁
        obtain ⟨t₂, ht₂⟩ := (ih.2 h₂).2.1
        cases hp : el₅.parent with
        | some p =>
          exact ⟨(Ev.trig e "dispose" :: t₁) ++ t₂ ++
            [Ev.childrenNulled c, Ev.offAll e₄, Ev.detached e₅,
             Ev.dataRemoved e₆, Ev.elNulled c],
            by simp [logE, putComp, putElem, hp, f₄.1, ht₂, ht₁]⟩
        | none =>
          exact ⟨(Ev.trig e "dispose" :: t₁) ++ t₂ ++
            [Ev.childrenNulled c, Ev.offAll e₄,
             Ev.dataRemoved e₆, Ev.elNulled c],
            by simp [logE, putComp, putElem, hp, f₄.1, ht₂, ht₁]⟩
      · intro x hx
        have hx₁ := evTrigger_timerOff hx h₁
        have hx₂ := (ih.2 h₂).2.2 x hx₁
        cases hp : el₅.parent <;>
          simpa [timerActive, logE, putComp, putElem, hp, f₄.2.2.1] using hx₂
    · intro l s s' h
      cases l with
      | nil =>
        simp only [disposeKids] at h
        simp at h
        subst h
        exact ⟨ElInv_of_comps_eq rfl, ⟨[], by simp⟩, fun x hx => hx⟩
      | cons k rest =>
        simp only [disposeKids] at h
        obtain ⟨sA, hA, h⟩ := exbind_ok.mp h
        obtain ⟨iA, ⟨tA, htA⟩, pA⟩ := ih.1 hA
        obtain ⟨iB, ⟨tB, htB⟩, pB⟩ := ih.2 h
        exact ⟨ElInv_trans iA iB, ⟨tA ++ tB, by simp [htB, htA]⟩,
          fun x hx => pB x (pA x hx)⟩

/-- C2: for every component `c` owning element `e`, a successful
`c.dispose()` leaves `c`'s child list null, `c`'s element reference null, and
dispatching any event type on the former element `e` afterwards appends only
the trigger entry to the log — no listener previously bound to `e` fires. -/
theorem c2_dispose_clears_and_silences {fuel c e : Nat} {s s' : St} {cp : Comp}
    (hc : alookup s.comps c = some cp) (he : cp.el_ = some e)
    (h : disposeM fuel c s = .ok s') :
    ∃ cp', alookup s'.comps c = some cp' ∧ cp'.children_ = none ∧ cp'.el_ = none ∧
      ∀ (ty : String) (f : Nat),
        evTrigger (f + 1) e ty false s' = .ok (logE s' (.trig e ty)) := by
  cases fuel with
  | zero => simp [disposeM] at h
  | succ n =>
    simp only [disposeM] at h
    obtain ⟨cp0, hcp, h⟩ := exbind_ok.mp h
    obtain ⟨e0, he0, h⟩ := exbind_ok.mp h
    obtain ⟨s₁, h₁, h⟩ := exbind_ok.mp h
    obtain ⟨cp₁, hcp₁, h⟩ := exbind_ok.mp h
    obtain ⟨s₂, h₂, h⟩ := exbind_ok.mp h
    obtain ⟨cp₂, hcp₂, h⟩ := exbind_ok.mp h
    obtain ⟨cp₃, hcp₃, h⟩ := exbind_ok.mp h
    obtain ⟨e₄, he₄, h⟩ := exbind_ok.mp h
    obtain ⟨s₄, h₄, h⟩ := exbind_ok.mp h
    obtain ⟨cp₄, hcp₄, h⟩ := exbind_ok.mp h
    obtain ⟨e₅, he₅, h⟩ := exbind_ok.mp h
    obtain ⟨el₅, hel₅, h⟩ := exbind_ok.mp h
    obtain ⟨cp₅, hcp₅, h⟩ := exbind_ok.mp h
    obtain ⟨e₆, he₆, h⟩ := exbind_ok.mp h
    obtain ⟨el₆, hel₆, h⟩ := exbind_ok.mp h
    obtain ⟨cp₆, hcp₆, h⟩ := exbind_ok.mp h
    simp only [Except.ok.injEq] at h
    subst h
    -- identify cp0 with cp, e0 with e
    rw [getComp_ok, hc] at hcp
    obtain rfl : cp = cp0 := Option.some.inj hcp
    rw [he] at he0
    obtain rfl : e = e0 := by simpa [ofOption] using he0
    rw [getComp_ok, evTrigger_comps h₁, hc] at hcp₁
    obtain rfl : cp = cp₁ := Option.some.inj hcp₁
    obtain ⟨cpx, hcpx, helx⟩ :=
      ((dispose_main n).2 h₂).1 c cp (by rw [evTrigger_comps h₁, hc])
    rw [getComp_ok, hcpx] at hcp₂
    obtain rfl := (Option.some.inj hcp₂).symm
    rw [getComp_ok] at hcp₃
    simp only [logE, putComp] at hcp₃
    rw [alookup_aset_self] at hcp₃
    obtain rfl := Option.some.inj hcp₃
    have hel₂ : cp₂.el_ = some e := by
      rcases helx with hx | hx
      · rw [hx, he]
      · simp [hx, ofOption] at he₄
    obtain rfl : e = e₄ := by simpa [ofOption, hel₂] using he₄
    have f₄ := evOff_frame h₄
    rw [getComp_ok] at hcp₄
    simp only [logE] at hcp₄
    rw [f₄.2.1] at hcp₄
    simp only [logE, putComp] at hcp₄
    rw [alookup_aset_self] at hcp₄
    obtain rfl := Option.some.inj hcp₄
    obtain rfl : e = e₅ := by simpa [ofOption, hel₂] using he₅
    cases hp : el₅.parent with
    | some p =>
      simp only [hp] at hcp₅ hel₆ hcp₆ ⊢
      rw [getComp_ok] at hcp₅
      simp only [logE, putElem] at hcp₅
      rw [f₄.2.1] at hcp₅
      simp only [logE, putComp] at hcp₅
      rw [alookup_aset_self] at hcp₅
      obtain rfl := Option.some.inj hcp₅
      obtain rfl : e = e₆ := by simpa [ofOption, hel₂] using he₆
      simp only [getElemM, logE, putElem] at hel₆
      rw [alookup_aset_self] at hel₆
      simp only [ofOption, Except.ok.injEq] at hel₆
      obtain rfl := hel₆
      rw [getComp_ok] at hcp₆
      simp only [logE, putElem] at hcp₆
      rw [f₄.2.1] at hcp₆
      simp only [logE, putComp] at hcp₆
      rw [alookup_aset_self] at hcp₆
      obtain rfl := Option.some.inj hcp₆
      refine ⟨{ cp₂ with
                  children_ := none, childIndex_ := none,
                  childNameIndex_ := none, el_ := none }, ?_, rfl, rfl, ?_⟩
      · simp [logE, putComp, putElem, alookup_aset_self]
      · intro ty f
        simp [evTrigger, getElemM, ofOption, logE, putComp, putElem,
          alookup_aset_self, runHandlers, Bind.bind, Except.bind]
    | none =>
      simp only [hp] at hcp₅ hel₆ hcp₆ ⊢
      rw [getComp_ok] at hcp₅
      simp only [logE] at hcp₅
      rw [f₄.2.1] at hcp₅
      simp only [logE, putComp] at hcp₅
      rw [alookup_aset_self] at hcp₅
      obtain rfl := Option.some.inj hcp₅
      obtain rfl : e = e₆ := by simpa [ofOption, hel₂] using he₆
      simp only [getElemM, logE] at hel₅ hel₆
      obtain rfl : el₅ = el₆ := by
        have h56 := hel₅.symm.trans hel₆
        simpa using h56
      rw [getComp_ok] at hcp₆
      simp only [logE, putElem] at hcp₆
      rw [f₄.2.1] at hcp₆
      simp only [logE, putComp] at hcp₆
      rw [alookup_aset_self] at hcp₆
      obtain rfl := Option.some.inj hcp₆
      refine ⟨{ cp₂ with
                  children_ := none, childIndex_ := none,
                  childNameIndex_ := none, el_ := none }, ?_, rfl, rfl, ?_⟩
      · simp [logE, putComp, putElem, alookup_aset_self]
      · intro ty f
        simp [evTrigger, getElemM, ofOption, logE, putComp, putElem,
          alookup_aset_self, runHandlers, Bind.bind, Except.bind]

theorem evOff_parent {e : Nat} {ty : Option String} {g : Option JsGuid} {s s' : St}
    (h : evOff e ty g s = .ok s') :
    ∀ x, (alookup s'.elems x).map (·.parent) = (alookup s.elems x).map (·.parent) := by
  intro x
  cases hx : alookup s.elems e with
  | none => simp [evOff, getElemM, ofOption, hx, Bind.bind, Except.bind] at h
  | some el =>
    simp [evOff, getElemM, ofOption, hx, Bind.bind, Except.bind] at h
    cases hd : el.data with
    | none => rw [hd] at h; simp at h; subst h; rfl
    | some d =>
      rw [hd] at h
      have key : ∀ eln : Elem, eln.parent = el.parent →
          (alookup (putElem e eln s).elems x).map (·.parent)
            = (alookup s.elems x).map (·.parent) := by
        intro eln hpn
        by_cases hxe : x = e
        · subst hxe
          simp [putElem, alookup_aset_self, hx, hpn]
        · simp [putElem, alookup_aset_ne _ _ _ _ hxe]
      cases ty with
      | none => simp at h; subst h; exact key _ rfl
      | some t =>
        cases g with
        | none => simp at h; subst h; exact key _ rfl
        | some gd => simp at h; subst h; exact key _ rfl

/-- C3: `dispose()` runs in strict order.  A successful `disposeM` factors
into: first the non-bubbling `dispose` trigger on the component's own element
(appending the trigger entry followed only by handler invocations), then the
recursive disposal of the children in reverse creation order, then the
`childrenNulled` mark (child list and both indices nulled), then removal of
all listeners on the element (`offAll`), then detaching the element — which
happens exactly when the element still has a DOM parent — then the
per-element bookkeeping release (`dataRemoved`) and only then the element
nulling (`elNulled`), with the final component record fully nulled. -/
theorem c3_dispose_strict_order {fuel c e : Nat} {s s' : St} {cp : Comp}
    (hc : alookup s.comps c = some cp) (he : cp.el_ = some e)
    (h : disposeM (fuel + 1) c s = .ok s') :
    ∃ s₁ s₂ tHandlers tKids tDetach,
      evTrigger fuel e "dispose" false s = .ok s₁ ∧
      s₁.log = s.log ++ Ev.trig e "dispose" :: tHandlers ∧
      (∀ ev ∈ tHandlers, ev.isInvoke = true) ∧
      disposeKids fuel (cp.children_.getD []).reverse s₁ = .ok s₂ ∧
      s₂.log = s₁.log ++ tKids ∧
      s'.log = s₂.log ++ [Ev.childrenNulled c, Ev.offAll e] ++ tDetach ++
        [Ev.dataRemoved e, Ev.elNulled c] ∧
      (tDetach = [] ∨ tDetach = [Ev.detached e]) ∧
      (tDetach = [Ev.detached e] ↔
        ∃ elx p, alookup s₂.elems e = some elx ∧ elx.parent = some p) ∧
      (∃ cp', alookup s'.comps c = some cp' ∧ cp'.children_ = none ∧
        cp'.childIndex_ = none ∧ cp'.childNameIndex_ = none ∧ cp'.el_ = none) := by
  simp only [disposeM] at h
  obtain ⟨cp0, hcp, h⟩ := exbind_ok.mp h
  obtain ⟨e0, he0, h⟩ := exbind_ok.mp h
  obtain ⟨s₁, h₁, h⟩ := exbind_ok.mp h
  obtain ⟨cp₁, hcp₁, h⟩ := exbind_ok.mp h
  obtain ⟨s₂, h₂, h⟩ := exbind_ok.mp h
  obtain ⟨cp₂, hcp₂, h⟩ := exbind_ok.mp h
  obtain ⟨cp₃, hcp₃, h⟩ := exbind_ok.mp h
  obtain ⟨e₄, he₄, h⟩ := exbind_ok.mp h
  obtain ⟨s₄, h₄, h⟩ := exbind_ok.mp h
  obtain ⟨cp₄, hcp₄, h⟩ := exbind_ok.mp h
  obtain ⟨e₅, he₅, h⟩ := exbind_ok.mp h
  obtain ⟨el₅, hel₅, h⟩ := exbind_ok.mp h
  obtain ⟨cp₅, hcp₅, h⟩ := exbind_ok.mp h
  obtain ⟨e₆, he₆, h⟩ := exbind_ok.mp h
  obtain ⟨el₆, hel₆, h⟩ := exbind_ok.mp h
  obtain ⟨cp₆, hcp₆, h⟩ := exbind_ok.mp h
  simp only [Except.ok.injEq] at h
  subst h
  rw [getComp_ok, hc] at hcp
  obtain rfl : cp = cp0 := Option.some.inj hcp
  rw [he] at he0
  obtain rfl : e = e0 := by simpa [ofOption] using he0
  rw [getComp_ok, evTrigger_comps h₁, hc] at hcp₁
  obtain rfl : cp = cp₁ := Option.some.inj hcp₁
  obtain ⟨cpx, hcpx, helx⟩ :=
    ((dispose_main fuel).2 h₂).1 c cp (by rw [evTrigger_comps h₁, hc])
  rw [getComp_ok, hcpx] at hcp₂
  obtain rfl := (Option.some.inj hcp₂).symm
  rw [getComp_ok] at hcp₃
  simp only [logE, putComp] at hcp₃
  rw [alookup_aset_self] at hcp₃
  obtain rfl := Option.some.inj hcp₃
  have hel₂ : cp₂.el_ = some e := by
    rcases helx with hx | hx
    · rw [hx, he]
    · simp [hx, ofOption] at he₄
  obtain rfl : e = e₄ := by simpa [ofOption, hel₂] using he₄
  have f₄ := evOff_frame h₄
  have p₄ := evOff_parent h₄
  rw [getComp_ok] at hcp₄
  simp only [logE] at hcp₄
  rw [f₄.2.1] at hcp₄
  simp only [logE, putComp] at hcp₄
  rw [alookup_aset_self] at hcp₄
  obtain rfl := Option.some.inj hcp₄
  obtain rfl : e = e₅ := by simpa [ofOption, hel₂] using he₅
  obtain ⟨tH, htH, hinv⟩ := evTrigger_false_log h₁
  obtain ⟨tK, htK⟩ := ((dispose_main fuel).2 h₂).2.1
  have hel₅e : (alookup s₂.elems e).map (·.parent) = some el₅.parent := by
    have := p₄ e
    simp only [getElemM, logE, ofOption] at hel₅
    cases hl : alookup s₄.elems e with
    | none => rw [hl] at hel₅; simp at hel₅
    | some elz =>
      rw [hl] at hel₅
      simp at hel₅
      subst hel₅
      rw [hl] at this
      simp only [logE, putComp] at this
      rw [← this]
      simp
  cases hp : el₅.parent with
  | some p =>
    simp only [hp] at hcp₅ hel₆ hcp₆ ⊢
    rw [getComp_ok] at hcp₅
    simp only [logE, putElem] at hcp₅
    rw [f₄.2.1] at hcp₅
    simp only [logE, putComp] at hcp₅
    rw [alookup_aset_self] at hcp₅
    obtain rfl := Option.some.inj hcp₅
    obtain rfl : e = e₆ := by simpa [ofOption, hel₂] using he₆
    rw [getComp_ok] at hcp₆
    simp only [logE, putElem] at hcp₆
    rw [f₄.2.1] at hcp₆
    simp only [logE, putComp] at hcp₆
    rw [alookup_aset_self] at hcp₆
    obtain rfl := Option.some.inj hcp₆
    refine ⟨s₁, s₂, tH, tK, [Ev.detached e], h₁, htH, hinv, h₂, htK, ?_, ?_, ?_, ?_⟩
    · simp [logE, putComp, putElem, f₄.1, htK]
    · exact Or.inr rfl
    · constructor
      · intro _
        rw [hp] at hel₅e
        cases hl : alookup s₂.elems e with
        | none => rw [hl] at hel₅e; simp at hel₅e
        | some elx =>
          rw [hl] at hel₅e
          simp at hel₅e
          exact ⟨elx, p, rfl, hel₅e⟩
      · intro _
        rfl
    · refine ⟨{ cp₂ with
                children_ := none, childIndex_ := none,
                childNameIndex_ := none, el_ := none }, ?_, rfl, rfl, rfl, rfl⟩
      simp [logE, putComp, putElem, alookup_aset_self]
  | none =>
    simp only [hp] at hcp₅ hel₆ hcp₆ ⊢
    rw [getComp_ok] at hcp₅
    simp only [logE] at hcp₅
    rw [f₄.2.1] at hcp₅
    simp only [logE, putComp] at hcp₅
    rw [alookup_aset_self] at hcp₅
    obtain rfl := Option.some.inj hcp₅
    obtain rfl : e = e₆ := by simpa [ofOption, hel₂] using he₆
    rw [getComp_ok] at hcp₆
    simp only [logE, putElem] at hcp₆
    rw [f₄.2.1] at hcp₆
    simp only [logE, putComp] at hcp₆
    rw [alookup_aset_self] at hcp₆
    obtain rfl := Option.some.inj hcp₆
    refine ⟨s₁, s₂, tH, tK, [], h₁, htH, hinv, h₂, htK, ?_, ?_, ?_, ?_⟩
    · simp [logE, putComp, putElem, f₄.1, htK]
    · exact Or.inl rfl
    · constructor
      · intro hbad
        simp at hbad
      · rintro ⟨elx, p, hlx, hpx⟩
        rw [hp] at hel₅e
        rw [hlx] at hel₅e
        simp [hpx] at hel₅e
    · refine ⟨{ cp₂ with
                children_ := none, childIndex_ := none,
                childNameIndex_ := none, el_ := none }, ?_, rfl, rfl, rfl, rfl⟩
      simp [logE, putComp, putElem, alookup_aset_self]

theorem fireTimer_inactive {tid : Nat} {s : St} (h : timerActive tid s = false) :
    fireTimer tid s = s := by
  simp only [timerActive] at h
  cases hl : alookup s.timers tid with
  | none => simp [fireTimer, hl]
  | some t =>
    rw [hl] at h
    simp at h
    simp [fireTimer, hl, h]

theorem setTimeout_dispose_inactive {c fn d fuel tid : Nat} {s s₁ s₂ : St}
    (hT : setTimeoutM c fn d s = .ok (tid, s₁))
    (hD : disposeM fuel c s₁ = .ok s₂) :
    timerActive tid s₂ = false := by
  simp only [setTimeoutM] at hT
  obtain ⟨cp, hcp, hT⟩ := exbind_ok.mp hT
  obtain ⟨e, he, hT⟩ := exbind_ok.mp hT
  obtain ⟨s₁', hOn, hT⟩ := exbind_ok.mp hT
  simp only [Except.ok.injEq, Prod.mk.injEq] at hT
  obtain ⟨rfl, rfl⟩ := hT
  cases fuel with
  | zero => simp [disposeM] at hD
  | succ m =>
    simp only [disposeM] at hD
    obtain ⟨cpd, hcpd, hD⟩ := exbind_ok.mp hD
    obtain ⟨ed, hed, hD⟩ := exbind_ok.mp hD
    obtain ⟨sA, hA, hD⟩ := exbind_ok.mp hD
    obtain ⟨cp₁, -, hD⟩ := exbind_ok.mp hD
    obtain ⟨sK, hK, hD⟩ := exbind_ok.mp hD
    obtain ⟨cp₂, -, hD⟩ := exbind_ok.mp hD
    obtain ⟨cp₃, -, hD⟩ := exbind_ok.mp hD
    obtain ⟨e₄, -, hD⟩ := exbind_ok.mp hD
    obtain ⟨s₄, h₄, hD⟩ := exbind_ok.mp hD
    obtain ⟨cp₄, -, hD⟩ := exbind_ok.mp hD
    obtain ⟨e₅, -, hD⟩ := exbind_ok.mp hD
    obtain ⟨el₅, -, hD⟩ := exbind_ok.mp hD
    obtain ⟨cp₅, -, hD⟩ := exbind_ok.mp hD
    obtain ⟨e₆, -, hD⟩ := exbind_ok.mp hD
    obtain ⟨el₆, -, hD⟩ := exbind_ok.mp hD
    obtain ⟨cp₆, -, hD⟩ := exbind_ok.mp hD
    simp only [Except.ok.injEq] at hD
    subst hD
    have hfOn := evOn_frame hOn
    rw [getComp_ok] at hcp hcpd
    rw [hfOn.2.1] at hcpd
    simp only at hcp
    rw [hcp] at hcpd
    obtain rfl : cp = cpd := Option.some.inj hcpd
    rw [he] at hed
    obtain rfl : e = ed := by simpa [ofOption] using hed
    cases hel₀ : alookup s.elems e with
    | none =>
      simp [evOn, getElemM, ofOption, hel₀, Bind.bind, Except.bind] at hOn
    | some el₀ =>
      simp only [evOn, getElemM, ofOption, hel₀, Bind.bind, Except.bind,
        Except.ok.injEq] at hOn
      subst hOn
      have hAin : timerActive s.nextTid sA = false := by
        cases m with
        | zero => simp [evTrigger] at hA
        | succ mm =>
          simp only [evTrigger] at hA
          obtain ⟨elT, helT, hA⟩ := exbind_ok.mp hA
          obtain ⟨sR, hR, hA⟩ := exbind_ok.mp hA
          simp only [Bool.false_eq_true, if_false, Except.ok.injEq] at hA
          subst hA
          simp only [getElemM, putElem, ofOption] at helT
          rw [alookup_aset_self] at helT
          simp only [Except.ok.injEq] at helT
          subst helT
          simp [alookup_aset_self] at hR
          rw [runHandlers_append] at hR
          obtain ⟨sMid, hMid, hLast⟩ := exbind_ok.mp hR
          simp only [runHandlers] at hLast
          obtain ⟨sB, hB, hLast⟩ := exbind_ok.mp hLast
          simp only [Except.ok.injEq] at hLast
          subst hLast
          simp only [interpBody] at hB
          exact timerActive_deact (clearTimeoutM_timers hB) (Or.inr rfl)
      have hKin := ((dispose_main m).2 hK).2.2 s.nextTid hAin
      have f₄ := evOff_frame h₄
      cases hp : el₅.parent <;>
        simpa [timerActive, logE, putComp, putElem, hp, f₄.2.2.1] using hKin

theorem setInterval_dispose_inactive {c fn d fuel tid : Nat} {s s₁ s₂ : St}
    (hT : setIntervalM c fn d s = .ok (tid, s₁))
    (hD : disposeM fuel c s₁ = .ok s₂) :
    timerActive tid s₂ = false := by
  simp only [setIntervalM] at hT
  obtain ⟨cp, hcp, hT⟩ := exbind_ok.mp hT
  obtain ⟨e, he, hT⟩ := exbind_ok.mp hT
  obtain ⟨s₁', hOn, hT⟩ := exbind_ok.mp hT
  simp only [Except.ok.injEq, Prod.mk.injEq] at hT
  obtain ⟨rfl, rfl⟩ := hT
  cases fuel with
  | zero => simp [disposeM] at hD
  | succ m =>
    simp only [disposeM] at hD
    obtain ⟨cpd, hcpd, hD⟩ := exbind_ok.mp hD
    obtain ⟨ed, hed, hD⟩ := exbind_ok.mp hD
    obtain ⟨sA, hA, hD⟩ := exbind_ok.mp hD
    obtain ⟨cp₁, -, hD⟩ := exbind_ok.mp hD
    obtain ⟨sK, hK, hD⟩ := exbind_ok.mp hD
    obtain ⟨cp₂, -, hD⟩ := exbind_ok.mp hD
    obtain ⟨cp₃, -, hD⟩ := exbind_ok.mp hD
    obtain ⟨e₄, -, hD⟩ := exbind_ok.mp hD
    obtain ⟨s₄, h₄, hD⟩ := exbind_ok.mp hD
    obtain ⟨cp₄, -, hD⟩ := exbind_ok.mp hD
    obtain ⟨e₅, -, hD⟩ := exbind_ok.mp hD
    obtain ⟨el₅, -, hD⟩ := exbind_ok.mp hD
    obtain ⟨cp₅, -, hD⟩ := exbind_ok.mp hD
    obtain ⟨e₆, -, hD⟩ := exbind_ok.mp hD
    obtain ⟨el₆, -, hD⟩ := exbind_ok.mp hD
    obtain ⟨cp₆, -, hD⟩ := exbind_ok.mp hD
    simp only [Except.ok.injEq] at hD
    subst hD
    have hfOn := evOn_frame hOn
    rw [getComp_ok] at hcp hcpd
    rw [hfOn.2.1] at hcpd
    simp only at hcp
    rw [hcp] at hcpd
    obtain rfl : cp = cpd := Option.some.inj hcpd
    rw [he] at hed
    obtain rfl : e = ed := by simpa [ofOption] using hed
    cases hel₀ : alookup s.elems e with
    | none =>
      simp [evOn, getElemM, ofOption, hel₀, Bind.bind, Except.bind] at hOn
    | some el₀ =>
      simp only [evOn, getElemM, ofOption, hel₀, Bind.bind, Except.bind,
        Except.ok.injEq] at hOn
      subst hOn
      have hAin : timerActive s.nextTid sA = false := by
        cases m with
        | zero => simp [evTrigger] at hA
        | succ mm =>
          simp only [evTrigger] at hA
          obtain ⟨elT, helT, hA⟩ := exbind_ok.mp hA
          obtain ⟨sR, hR, hA⟩ := exbind_ok.mp hA
          simp only [Bool.false_eq_true, if_false, Except.ok.injEq] at hA
          subst hA
          simp only [getElemM, putElem, ofOption] at helT
          rw [alookup_aset_self] at helT
          simp only [Except.ok.injEq] at helT
          subst helT
          simp [alookup_aset_self] at hR
          rw [runHandlers_append] at hR
          obtain ⟨sMid, hMid, hLast⟩ := exbind_ok.mp hR
          simp only [runHandlers] at hLast
          obtain ⟨sB, hB, hLast⟩ := exbind_ok.mp hLast
          simp only [Except.ok.injEq] at hLast
          subst hLast
          simp only [interpBody] at hB
          exact timerActive_deact (clearIntervalM_timers hB) (Or.inr rfl)
      have hKin := ((dispose_main m).2 hK).2.2 s.nextTid hAin
      have f₄ := evOff_frame h₄
      cases hp : el₅.parent <;>
        simpa [timerActive, logE, putComp, putElem, hp, f₄.2.2.1] using hKin

/-- C5: timers versus disposal.  If `c.setTimeout(fn, delay)` (or
`c.setInterval`) succeeds and `c.dispose()` then completes, the platform
timer is no longer pending, and a subsequent host timer-queue turn on that
timer id is a no-op — the callback never fires (never fires again). -/
theorem c5_timer_dispose_cancels {c fn d fuel tid : Nat} {s s₁ s₂ : St} :
    (setTimeoutM c fn d s = .ok (tid, s₁) → disposeM fuel c s₁ = .ok s₂ →
      timerActive tid s₂ = false ∧ fireTimer tid s₂ = s₂) ∧
    (setIntervalM c fn d s = .ok (tid, s₁) → disposeM fuel c s₁ = .ok s₂ →
      timerActive tid s₂ = false ∧ fireTimer tid s₂ = s₂) := by
  refine ⟨fun hT hD => ?_, fun hT hD => ?_⟩
  · have h := setTimeout_dispose_inactive hT hD
    exact ⟨h, fireTimer_inactive h⟩
  · have h := setInterval_dispose_inactive hT hD
    exact ⟨h, fireTimer_inactive h⟩

theorem c5_timer_dispose_cancels_witness :
    ∃ sA sB sA' sB' : St,
      setTimeoutM 0 7 10 twoSt = .ok (0, sA) ∧ disposeM 9 0 sA = .ok sB ∧
      timerActive 0 sB = false ∧ fireTimer 0 sB = sB ∧
      setIntervalM 0 7 10 twoSt = .ok (0, sA') ∧ disposeM 9 0 sA' = .ok sB' ∧
      timerActive 0 sB' = false ∧ fireTimer 0 sB' = sB' := by
  refine ⟨_, _, _, _, rfl, rfl, ?_, ?_, rfl, rfl, ?_, ?_⟩
  · exact ((@c5_timer_dispose_cancels 0 7 10 9 0 twoSt _ _).1 rfl rfl).1
  · exact ((@c5_timer_dispose_cancels 0 7 10 9 0 twoSt _ _).1 rfl rfl).2
  · exact ((@c5_timer_dispose_cancels 0 7 10 9 0 twoSt _ _).2 rfl rfl).1
  · exact ((@c5_timer_dispose_cancels 0 7 10 9 0 twoSt _ _).2 rfl rfl).2

theorem foldl_invoke_log (q : List Nat) (s : St) :
    (q.foldl (fun s f => logE s (.invoke f)) s).log = s.log ++ q.map Ev.invoke := by
  induction q generalizing s with
  | nil => simp
  | cons f rest ih =>
    simp only [List.foldl_cons]
    rw [ih]
    simp [logE]

theorem foldl_invoke_comps (q : List Nat) (s : St) :
    (q.foldl (fun s f => logE s (.invoke f)) s).comps = s.comps := by
  induction q generalizing s with
  | nil => simp
  | cons f rest ih =>
    simp only [List.foldl_cons]
    rw [ih]
    simp [logE]

/-- C4: ready semantics.  `ready(fn)` before `triggerReady()` appends `fn`
to the ready queue without invoking it; `ready(fn)` once ready invokes `fn`
synchronously; `triggerReady()` on a non-empty queue drains it exactly once —
the queued callbacks are invoked in registration order followed by a single
`ready` event — and resets the queue to empty; `triggerReady()` with an empty
or absent queue only marks the component ready and emits nothing. -/
theorem c4_ready_queue_semantics (fuel c f : Nat) (s : St) (cp : Comp)
    (hc : alookup s.comps c = some cp) :
    (cp.isReady_ = false →
      readyM c (some f) s = .ok (putComp c
        { cp with readyQueue_ := some (cp.readyQueue_.getD [] ++ [f]) } s)) ∧
    (cp.isReady_ = true → readyM c (some f) s = .ok (logE s (.invoke f))) ∧
    (∀ q e s', cp.readyQueue_ = some q → q.isEmpty = false → cp.el_ = some e →
      triggerReadyM (fuel + 1) c s = .ok s' →
      (∃ t, s'.log = s.log ++ q.map Ev.invoke ++ Ev.trig e "ready" :: t ∧
        ∀ ev ∈ t, ev.isInvoke = true) ∧
      ∃ cp', alookup s'.comps c = some cp' ∧ cp'.isReady_ = true ∧
        cp'.readyQueue_ = some []) ∧
    ((cp.readyQueue_ = some [] ∨ cp.readyQueue_ = none) →
      triggerReadyM (fuel + 1) c s = .ok (putComp c { cp with isReady_ := true } s)) := by
  refine ⟨?_, ?_, ?_, ?_⟩
  · intro hr
    simp [readyM, getComp, ofOption, hc, hr, Bind.bind, Except.bind]
  · intro hr
    simp [readyM, getComp, ofOption, hc, hr, Bind.bind, Except.bind]
  · intro q e s' hq hne hel htr
    simp only [triggerReadyM] at htr
    obtain ⟨cp0, hcp0, htr⟩ := exbind_ok.mp htr
    rw [getComp_ok, hc] at hcp0
    obtain rfl : cp = cp0 := Option.some.inj hcp0
    simp only [hq, hne, Bool.false_eq_true, if_false] at htr
    obtain ⟨cp₁, hcp₁, htr⟩ := exbind_ok.mp htr
    rw [getComp_ok] at hcp₁
    rw [foldl_invoke_comps] at hcp₁
    simp only [putComp, alookup_aset_self] at hcp₁
    obtain rfl := Option.some.inj hcp₁
    obtain ⟨cp₂, hcp₂, htr⟩ := exbind_ok.mp htr
    rw [getComp_ok] at hcp₂
    simp only [putComp, alookup_aset_self] at hcp₂
    obtain rfl := Option.some.inj hcp₂
    obtain ⟨e', hel', htr⟩ := exbind_ok.mp htr
    obtain rfl : e = e' := by simpa [ofOption, hel] using hel'
    constructor
    · obtain ⟨t, ht, hinv⟩ := evTrigger_false_log htr
      refine ⟨t, ?_, hinv⟩
      rw [ht]
      simp only [putComp]
      rw [foldl_invoke_log]
    · refine ⟨{ cp with isReady_ := true, readyQueue_ := some [] }, ?_, rfl, rfl⟩
      rw [evTrigger_comps htr]
      simp [putComp, alookup_aset_self]
  · intro hq
    rcases hq with hq | hq <;>
      simp [triggerReadyM, getComp, ofOption, hc, hq, Bind.bind, Except.bind,
        List.isEmpty]

/-- C9: `getComponent` resolution chain.  A name found in the process-wide
registry resolves there with no side effect; an unregistered name falls back
to the deprecated `videojs` global namespace and, when that resolves, logs
the deprecation warning; when neither resolves the result is `none` and the
state unchanged.  `registerComponent(name, ty)` followed by
`getComponent(name)` returns `ty`. -/
theorem c9_getComponent_lookup_chain (nm : String) (s : St) :
    (∀ r ty, s.registry = some r → alookup r nm = some ty →
      getComponentM nm s = (some ty, s)) ∧
    (∀ vj ty, (s.registry = none ∨ ∃ r, s.registry = some r ∧ alookup r nm = none) →
      s.videojs = some vj → alookup vj nm = some ty →
      getComponentM nm s = (some ty, logE s (.warnE globalFallbackWarn))) ∧
    ((s.registry = none ∨ ∃ r, s.registry = some r ∧ alookup r nm = none) →
      (s.videojs = none ∨ ∃ vj, s.videojs = some vj ∧ alookup vj nm = none) →
      getComponentM nm s = (none, s)) ∧
    (∀ ty, getComponentM nm (registerComponentM nm ty s)
      = (some ty, registerComponentM nm ty s)) := by
  refine ⟨?_, ?_, ?_, ?_⟩
  · intro r ty hr hl
    simp [getComponentM, hr, hl]
  · intro vj ty hreg hvj hl
    rcases hreg with hreg | ⟨r, hreg, hnone⟩
    · simp [getComponentM, hreg, hvj, hl]
    · simp [getComponentM, hreg, hnone, hvj, hl]
  · intro hreg hvj
    rcases hreg with hreg | ⟨r, hreg, hnone⟩ <;>
      rcases hvj with hvj | ⟨vj, hvj, hvnone⟩
    · simp [getComponentM, hreg, hvj]
    · simp [getComponentM, hreg, hvj, hvnone]
    · simp [getComponentM, hreg, hnone, hvj]
    · simp [getComponentM, hreg, hnone, hvj, hvnone]
  · intro ty
    simp [getComponentM, registerComponentM, alookup_aset_self]

theorem findLastIdx_none {l : List Nat} {x : Nat} (h : findLastIdx l x = none) :
    x ∉ l := by
  induction l with
  | nil => simp
  | cons y rest ih =>
    simp only [findLastIdx] at h
    cases hr : findLastIdx rest x with
    | some i => rw [hr] at h; simp at h
    | none =>
      rw [hr] at h
      by_cases hy : y = x
      · simp [hy] at h
      · simp only [List.mem_cons, not_or]
        exact ⟨fun hh => hy hh.symm, ih hr⟩

theorem findLastIdx_spec {l : List Nat} {x : Nat} {i : Nat}
    (h : findLastIdx l x = some i) :
    l.get? i = some x ∧ ∀ j, i < j → l.get? j ≠ some x := by
  induction l generalizing i with
  | nil => simp [findLastIdx] at h
  | cons y rest ih =>
    simp only [findLastIdx] at h
    cases hr : findLastIdx rest x with
    | some k =>
      rw [hr] at h
      simp at h
      subst h
      obtain ⟨h1, h2⟩ := ih hr
      refine ⟨by simpa using h1, ?_⟩
      intro j hj
      cases j with
      | zero => omega
      | succ j' =>
        simp only [List.get?_cons_succ]
        exact h2 j' (by omega)
    | none =>
      rw [hr] at h
      by_cases hy : y = x
      · simp [hy] at h
        subst h
        refine ⟨by simp [hy], ?_⟩
        intro j hj
        cases j with
        | zero => omega
        | succ j' =>
          simp only [List.get?_cons_succ]
          intro hmem
          exact (findLastIdx_none hr) (List.get?_mem hmem)
      · simp [hy] at h

/-- C7: `removeChild` scope.  With parent `p` and a component argument:
a torn-down child list or an unmatched component makes the call a no-op
returning the state unchanged; on a match it removes exactly the last
occurrence from `children`, writes `null` into both index entries, leaves
the child component itself untouched (never disposed), logs nothing, touches
no other component, and detaches the child's element exactly when its
current parent is the parent's content element, touching no other element. -/
theorem c7_removeChild_single_entry (p cid : Nat) (s : St) (cp : Comp)
    (hc : alookup s.comps p = some cp) (hne : cid ≠ p) :
    (cp.children_ = none → removeChildM p (.inr cid) s = .ok s) ∧
    (∀ l, cp.children_ = some l → findLastIdx l cid = none →
      removeChildM p (.inr cid) s = .ok s) ∧
    (∀ l i child ix nix pe,
      cp.children_ = some l → findLastIdx l cid = some i →
      alookup s.comps cid = some child →
      cp.childIndex_ = some ix → cp.childNameIndex_ = some nix →
      (cp.contentEl_ <|> cp.el_) = some pe →
      (∀ ce, child.el_ = some ce → (alookup s.elems ce).isSome) →
      ∃ s', removeChildM p (.inr cid) s = .ok s' ∧
        l.get? i = some cid ∧ (∀ j, i < j → l.get? j ≠ some cid) ∧
        (∃ cp', alookup s'.comps p = some cp' ∧
          cp'.children_ = some (l.eraseIdx i) ∧
          cp'.childIndex_ = some (aset ix child.id_ none) ∧
          cp'.childNameIndex_ = some (aset nix (child.name_.getD "null") none)) ∧
        alookup s'.comps cid = some child ∧
        s'.log = s.log ∧
        (∀ k, k ≠ p → alookup s'.comps k = alookup s.comps k) ∧
        (∀ ce cel, child.el_ = some ce → alookup s.elems ce = some cel →
          alookup s'.elems ce =
            some (if cel.parent = some pe then { cel with parent := none } else cel)) ∧
        (∀ x, (∀ ce, child.el_ = some ce → x ≠ ce) →
          alookup s'.elems x = alookup s.elems x)) := by
  refine ⟨?_, ?_, ?_⟩
  · intro hch
    simp [removeChildM, getComp, ofOption, hc, hch, Bind.bind, Except.bind,
      pure, Except.pure]
  · intro l hch hfind
    simp [removeChildM, getComp, ofOption, hc, hch, hfind, Bind.bind, Except.bind,
      pure, Except.pure]
  · intro l i child ix nix pe hch hfind hchild hix hnix hpe helem
    have hlook : ∀ R : Comp, alookup (aset s.comps p R) cid = some child := by
      intro R
      rw [alookup_aset_ne _ _ _ _ hne]
      exact hchild
    obtain ⟨hget, hafter⟩ := findLastIdx_spec hfind
    cases hel : child.el_ with
    | none =>
      cases hrun : removeChildM p (.inr cid) s with
      | error err =>
        simp only [removeChildM, getComp, ofOption, hc, Bind.bind, Except.bind,
          pure, Except.pure, hch, hfind, putComp, alookup_aset_self, hlook, hix, hnix, hel] at hrun
        exact Except.noConfusion hrun
      | ok s' =>
        simp only [removeChildM, getComp, ofOption, hc, Bind.bind, Except.bind,
          pure, Except.pure, hch, hfind, putComp, alookup_aset_self, hlook, hix, hnix, hel,
          Except.ok.injEq] at hrun
        subst hrun
        refine ⟨_, rfl, hget, hafter, ?_, ?_, rfl, ?_, ?_, ?_⟩
        · refine ⟨{ cp with
                      children_ := some (l.eraseIdx i),
                      childIndex_ := some (aset ix child.id_ none),
                      childNameIndex_ := some (aset nix (child.name_.getD "null") none) },
              ?_, rfl, rfl, rfl⟩
          simp only [alookup_aset_self, Option.getD]
        · simp [alookup_aset_ne _ _ _ _ hne, hchild]
        · intro k hk
          simp [alookup_aset_ne _ _ _ _ hk]
        · intro ce cel hce
          exact absurd hce (by simp)
        · intro x hx
          rfl
    | some ce =>
      obtain ⟨cel, hcel⟩ := Option.isSome_iff_exists.mp (helem ce hel)
      by_cases hpar : cel.parent = some pe
      · cases hrun : removeChildM p (.inr cid) s with
        | error err =>
          simp only [removeChildM, getComp, ofOption, hc, Bind.bind, Except.bind,
            pure, Except.pure, hch, hfind, putComp, alookup_aset_self, hlook, hix, hnix, hel,
            getElemM, hcel, hpe, hpar, putElem, if_pos] at hrun
          exact Except.noConfusion hrun
        | ok s' =>
          simp only [removeChildM, getComp, ofOption, hc, Bind.bind, Except.bind,
            pure, Except.pure, hch, hfind, putComp, alookup_aset_self, hlook, hix, hnix, hel,
            getElemM, hcel, hpe, hpar, putElem, if_pos,
            Except.ok.injEq] at hrun
          subst hrun
          refine ⟨_, rfl, hget, hafter, ?_, ?_, rfl, ?_, ?_, ?_⟩
          · refine ⟨{ cp with
                        children_ := some (l.eraseIdx i),
                        childIndex_ := some (aset ix child.id_ none),
                        childNameIndex_ := some (aset nix (child.name_.getD "null") none) },
                ?_, rfl, rfl, rfl⟩
            simp only [alookup_aset_self, Option.getD]
          · simp [alookup_aset_ne _ _ _ _ hne, hchild]
          · intro k hk
            simp [alookup_aset_ne _ _ _ _ hk]
          · intro ce' cel' hce' hcel'
            obtain rfl : ce = ce' := Option.some.inj hce'
            rw [hcel] at hcel'
            obtain rfl : cel = cel' := Option.some.inj hcel'
            simp [alookup_aset_self, hpar]
          · intro x hx
            simp [alookup_aset_ne _ _ _ _ (hx ce rfl)]
      · cases hrun : removeChildM p (.inr cid) s with
        | error err =>
          simp only [removeChildM, getComp, ofOption, hc, Bind.bind, Except.bind,
            pure, Except.pure, hch, hfind, putComp, alookup_aset_self, hlook, hix, hnix, hel,
            getElemM, hcel, hpe, hpar, putElem, if_neg, if_false] at hrun
          exact Except.noConfusion hrun
        | ok s' =>
          simp only [removeChildM, getComp, ofOption, hc, Bind.bind, Except.bind,
            pure, Except.pure, hch, hfind, putComp, alookup_aset_self, hlook, hix, hnix, hel,
            getElemM, hcel, hpe, hpar, putElem, if_neg, if_false,
            Except.ok.injEq] at hrun
          subst hrun
          refine ⟨_, rfl, hget, hafter, ?_, ?_, rfl, ?_, ?_, ?_⟩
          · refine ⟨{ cp with
                        children_ := some (l.eraseIdx i),
                        childIndex_ := some (aset ix child.id_ none),
                        childNameIndex_ := some (aset nix (child.name_.getD "null") none) },
                ?_, rfl, rfl, rfl⟩
            simp only [alookup_aset_self, Option.getD]
          · simp [alookup_aset_ne _ _ _ _ hne, hchild]
          · intro k hk
            simp [alookup_aset_ne _ _ _ _ hk]
          · intro ce' cel' hce' hcel'
            obtain rfl : ce = ce' := Option.some.inj hce'
            rw [hcel] at hcel'
            obtain rfl : cel = cel' := Option.some.inj hcel'
            simp [hpar, hcel]
          · intro x hx
            rfl

theorem getComponentM_nextComp (nm : String) (s : St) :
    (getComponentM nm s).2.nextComp = s.nextComp := by
  simp only [getComponentM]
  cases hr : s.registry with
  | none =>
    cases hv : s.videojs with
    | none => simp [hv]
    | some vj => cases hl : alookup vj nm <;> simp [hv, hl, logE]
  | some r =>
    cases hlr : alookup r nm with
    | some ty => simp [hlr]
    | none =>
      cases hv : s.videojs with
      | none => simp [hlr, hv]
      | some vj => cases hl : alookup vj nm <;> simp [hlr, hv, hl, logE]

theorem constructM_cid {fuel : Nat} {pl : Option PRef} {df : JVal} {opts : Option JVal}
    {rdy : Option Nat} {s : St} {cid : Nat} {s' : St}
    (h : constructM fuel pl df opts rdy s = .ok (cid, s')) :
    cid = s.nextComp := by
  cases fuel with
  | zero => simp [constructM.eq_def] at h
  | succ fuel => ?_
  simp only [constructM.eq_def] at h
  obtain ⟨er, her, h⟩ := exbind_ok.mp h
  have hn : er.2.nextComp = s.nextComp := by
    clear h
    repeat' split at her
    all_goals try injection her with her
    all_goals try subst her
    all_goals try rfl
    all_goals exact absurd her (by simp)
  split at h <;>
  · obtain ⟨sA, -, h⟩ := exbind_ok.mp h
    obtain ⟨sB, -, h⟩ := exbind_ok.mp h
    simp only [Except.ok.injEq, Prod.mk.injEq] at h
    omega

theorem ofOption_ok {α : Type} {o : Option α} {a : α} :
    ofOption o = .ok a ↔ o = some a := by
  cases o <;> simp [ofOption]

theorem addChildM_string_split {fuel p : Nat} {nm : String} {opts : JVal} {s : St}
    {cid : Nat} {s' : St}
    (h : addChildM (fuel + 1) p (.inl nm) opts s = .ok (cid, s')) :
    ∃ sMid, addChildFinish p s.nextComp (some nm) sMid = .ok (cid, s') := by
  simp only [addChildM.eq_def] at h
  split at h
  · exact absurd h (by simp)
  · obtain ⟨cp, -, h⟩ := exbind_ok.mp h
    obtain ⟨r, hcon, hfin⟩ := exbind_ok.mp h
    rw [constructM_cid hcon, getComponentM_nextComp] at hfin
    split at hfin
    · exact ⟨r.2, hfin⟩
    · exact ⟨r.2, hfin⟩

theorem addChildFinish_retrieve {p cid : Nat} {nm : String} {s : St} {cid' : Nat} {s' : St}
    (hne : cid ≠ p) (hnm : nm ≠ "")
    (h : addChildFinish p cid (some nm) s = .ok (cid', s')) :
    cid' = cid ∧
    getChildM p nm s' = .ok (some cid) ∧
    ∃ childCp, alookup s'.comps cid = some childCp ∧
      getChildByIdM p childCp.id_ s' = .ok (some cid) := by
  simp only [addChildFinish] at h
  obtain ⟨cp, hcp, h⟩ := exbind_ok.mp h
  obtain ⟨l, hl, h⟩ := exbind_ok.mp h
  obtain ⟨child, hchild, h⟩ := exbind_ok.mp h
  obtain ⟨cp₁, hcp₁, h⟩ := exbind_ok.mp h
  obtain ⟨ix, hix, h⟩ := exbind_ok.mp h
  simp only [if_neg hnm] at h
  obtain ⟨cp₂, hcp₂, h⟩ := exbind_ok.mp h
  obtain ⟨nix, hnix, h⟩ := exbind_ok.mp h
  obtain ⟨s₂, hs₂, h⟩ := exbind_ok.mp h
  simp only [pure, Except.pure, Except.ok.injEq] at hs₂
  subst hs₂
  rw [getComp_ok] at hcp hchild hcp₁ hcp₂
  rw [ofOption_ok] at hl hix hnix
  simp only [putComp, alookup_aset_ne _ _ _ _ hne] at hchild
  simp only [putComp, alookup_aset_self] at hcp₁ hcp₂
  obtain rfl : cp₁ = _ := Option.some.inj hcp₁.symm
  obtain rfl : cp₂ = _ := Option.some.inj hcp₂.symm
  have hfinP : ∀ t : St, t.comps =
      aset (aset (aset s.comps p { cp with children_ := some (l ++ [cid]) }) p
          { cp with children_ := some (l ++ [cid]),
                    childIndex_ := some (aset ix child.id_ (some cid)) }) p
        { cp with children_ := some (l ++ [cid]),
                  childIndex_ := some (aset ix child.id_ (some cid)),
                  childNameIndex_ := some (aset nix nm (some cid)) } →
      getChildM p nm t = .ok (some cid) ∧
      ∃ childCp, alookup t.comps cid = some childCp ∧
        getChildByIdM p childCp.id_ t = .ok (some cid) := by
    intro t ht
    refine ⟨?_, child, ?_, ?_⟩
    · simp [getChildM, getComp, ht, alookup_aset_self, ofOption, Bind.bind,
        Except.bind, alookup_aset_ne, logE]
    · simp [ht, alookup_aset_ne _ _ _ _ hne, hchild]
    · simp [getChildByIdM, getComp, ht, alookup_aset_self, ofOption, Bind.bind,
        Except.bind, alookup_aset_ne, logE]
  cases hel : child.el_ with
  | none =>
    rw [hel] at h
    simp only [Except.ok.injEq, Prod.mk.injEq] at h
    obtain ⟨rfl, rfl⟩ := h
    exact ⟨rfl, hfinP _ (by simp [putComp])⟩
  | some ce =>
    rw [hel] at h
    obtain ⟨cp₃, hcp₃, h⟩ := exbind_ok.mp h
    obtain ⟨pe, hpe, h⟩ := exbind_ok.mp h
    obtain ⟨cel, hcel, h⟩ := exbind_ok.mp h
    simp only [Except.ok.injEq, Prod.mk.injEq] at h
    obtain ⟨rfl, rfl⟩ := h
    exact ⟨rfl, hfinP _ (by simp [putElem, putComp])⟩

/-- C8 counterexample: two concrete runs refuting the claim as stated.
Adding a child under the empty name `""` succeeds (the name-index write is
skipped), so `getChild("")` does not return the new child; and adding two
children under the same name `"foo"` keeps both in `children` — neither
removed nor disposed — while `getChild("foo")` resolves only to the second
one, so the first added child is no longer retrievable by name. -/
theorem c8_counterexample :
    ((addChildM 9 0 (.inl "") (.objv [("componentClass", .strv "Component")]) c8Base).map
        (fun r => (r.1, (getChildM 0 "" r.2).toOption))
      = .ok (1, some none)) ∧
    ((do
        let r₁ ← addChildM 9 0 (.inl "foo") (.objv []) c8Base
        let r₂ ← addChildM 9 0 (.inl "foo") (.objv []) r₁.2
        Except.ok (r₁.1, r₂.1,
          (alookup r₂.2.comps 0).map (fun pc : Comp => pc.children_),
          (alookup r₂.2.comps r₁.1).isSome,
          (getChildM 0 "foo" r₂.2).toOption) :
        Except Err (Nat × Nat × Option (Option (List Nat)) × Bool × Option (Option Nat)))
      = .ok (1, 2, some (some [1, 2]), true, some (some 2))) := by
  constructor <;>
    simp +decide [addChildM, constructM, initChildrenM, readyM, addChildFinish,
      getComponentM, registerComponentM, registerBase, c8Base, mergeJ, mergeOver,
      toTitleCase, setFieldJ, jlookupV, jsTruthy, jStr, getChildM, getComp,
      getElemM, ofOption, putComp, putElem, logE, alookup, aset, emptySt, mkComp,
      freshElem, enableTouchActivityM, playerIdOf, Bind.bind, Except.bind,
      Except.map, pure, Except.pure, Except.toOption, String.reduceEq]

/-- C8 (amended): for every parent `p` live in the heap and every
*non-empty* name, a successful `p.addChild(name, options)` makes the new
child retrievable both as `getChild(name)` and as
`getChildById(child.id())` — immediately after the add, which is the most
recent add under that name. -/
theorem c8_addChild_retrievable {fuel p : Nat} {nm : String} {opts : JVal} {s : St}
    {cid : Nat} {s' : St}
    (hnm : nm ≠ "") (hp : p < s.nextComp)
    (h : addChildM (fuel + 1) p (.inl nm) opts s = .ok (cid, s')) :
    getChildM p nm s' = .ok (some cid) ∧
    ∃ childCp, alookup s'.comps cid = some childCp ∧
      getChildByIdM p childCp.id_ s' = .ok (some cid) := by
  obtain ⟨sMid, hfin⟩ := addChildM_string_split h
  have hne : s.nextComp ≠ p := by omega
  obtain ⟨rfl, h1, h2⟩ := addChildFinish_retrieve hne hnm hfin
  exact ⟨h1, h2⟩

set_option maxHeartbeats 4000000 in
/-- C1: cross-component subscription symmetry, for every two components.
In an arbitrary state, let `A` (any handle `a`, element `ea`) and `B` (any
handle `b`, element `eb`) be two distinct live leaf components whose elements
carry no listeners yet, and let `fn` be any opaque handler.  After
`A.on(B, 'evt', fn)`: disposing `B` first leaves a later `A.dispose()`
completing without throwing (the mirror cleanup listener on `B`'s `dispose`
removed `A`'s forward cleanup, so `A` holds no dangling reference to the
gone `B`); disposing `A` first removes the wrapped listener from `B`, so
triggering `'evt'` on `B` afterwards succeeds without ever invoking `fn` —
while without the disposal the same trigger invokes `fn` exactly once
more. -/
theorem c1_cross_subscription_symmetry
    {s : St} {a b ea eb fn : Nat} {cpa cpb : Comp}
    (hab : a ≠ b) (heab : ea ≠ eb) (heba : eb ≠ ea)
    (hA : alookup s.comps a = some cpa) (hAe : cpa.el_ = some ea)
    (hAch : cpa.children_ = some [])
    (hB : alookup s.comps b = some cpb) (hBe : cpb.el_ = some eb)
    (hBch : cpb.children_ = some [])
    (hEa : alookup s.elems ea = some freshElem)
    (hEb : alookup s.elems eb = some freshElem) :
    ∃ s₀, onCompM a (.compT b) "evt" fn s = .ok s₀ ∧
      (∃ s₁ s₂, disposeM 9 b s₀ = .ok s₁ ∧ disposeM 9 a s₁ = .ok s₂) ∧
      (∃ s₁ s₂, disposeM 9 a s₀ = .ok s₁ ∧
        evTrigger 9 eb "evt" false s₁ = .ok s₂ ∧
        invokeCount fn s₂.log = invokeCount fn s.log) ∧
      (∃ s₃, evTrigger 9 eb "evt" false s₀ = .ok s₃ ∧
        invokeCount fn s₃.log = invokeCount fn s.log + 1) := by
  simp [onCompM, disposeM, disposeKids, evTrigger, runHandlers, interpBody,
    offCompM, offM, evOn, evOff, getComp, getElemM, ofOption, putComp, putElem,
    logE, invokeCount, alookup_aset_self, alookup_aset_ne, hab, heab, heba,
    hA, hAe, hAch, hB, hBe, hBch, hEa, hEb, freshElem, alookup, aset,
    Bind.bind, Except.bind, pure, Except.pure, List.filter_append]

/-- C6: `initChildren` falsey handling at the claim's own scenario (default
child option `children: {foo: {x: 1}}`).  An override `{foo: false}` yields
zero children; an override `{foo: {x: 2}}` yields exactly one child named
`foo` whose merged options carry `x = 2`; but the override `{foo: null}` —
explicitly falsey, which the claim says is skipped — still constructs a child
named `foo`: the code only tests `options[name] === false`
(component.js:482), so `null` is not an opt-out.  This is the divergence
behind the code_bug verdict. -/
theorem c6_falsey_children_divergence :
    ((constructM 9 none c6Defaults
        (some (.objv [("children", .objv [("foo", .boolv false)])])) none c6Reg).map
        (fun r => (alookup r.2.comps r.1).map (fun cp : Comp => cp.children_))
      = .ok (some (some []))) ∧
    ((constructM 9 none c6Defaults
        (some (.objv [("children", .objv [("foo", .objv [("x", .numv 2)])])])) none c6Reg).map
        (fun r => ((alookup r.2.comps r.1).map (fun cp : Comp => cp.children_),
          (alookup r.2.comps 1).map (fun cp : Comp =>
            (cp.name_, match jlookupV cp.options_ "x" with
              | some (.numv n) => some n
              | _ => none))))
      = .ok (some (some [1]), some (some "foo", some 2))) ∧
    ((constructM 9 none c6Defaults
        (some (.objv [("children", .objv [("foo", .nullv)])])) none c6Reg).map
        (fun r => ((alookup r.2.comps r.1).map (fun cp : Comp => cp.children_),
          (alookup r.2.comps 1).map (fun cp : Comp => cp.name_)))
      = .ok (some (some [1]), some (some "foo"))) := by
  refine ⟨?_, ?_, ?_⟩ <;>
    simp +decide [constructM, initChildrenM, initObjList, initArrList, handleAdd,
      addChildM, addChildFinish, readyM, getComponentM, registerComponentM,
      c6Reg, c6Defaults, mergeJ, mergeOver, toTitleCase, setFieldJ, jlookupV,
      jsTruthy, jStr, getComp, getElemM, ofOption, putComp, putElem, logE,
      alookup, aset, emptySt, enableTouchActivityM, playerIdOf, Except.map,
      Bind.bind, Except.bind, pure, Except.pure]

theorem mergeJ_emptyLeft (fuel : Nat) (fs : List (String × JVal)) :
    mergeJ (fuel + 1) (.objv []) (.objv fs) = .objv fs := by
  cases fuel with
  | zero => simp [mergeJ, mergeOver, alookup]
  | succ g => simp [mergeJ, mergeOver, alookup]

set_option maxHeartbeats 2000000 in
/-- C10: a component constructed with `createEl: false` and no `el` option
(the other constructor-interpreted keys absent, any other fields arbitrary)
ends with a null element reference, and every subsequent `dispose()` call
throws (the dispose-event trigger dereferences the absent element) instead of
completing teardown. -/
theorem c10_createEl_false_dispose_throws {fuel : Nat} {pl : Option PRef}
    {fs : List (String × JVal)} {s : St} {cid : Nat} {s' : St}
    (hCE : alookup fs "createEl" = some (.boolv false))
    (hEl : alookup fs "el" = none)
    (hId : alookup fs "id" = none)
    (hName : alookup fs "name" = none)
    (hCh : alookup fs "children" = none)
    (hIC : alookup fs "initChildren" = none)
    (hRTA : alookup fs "reportTouchActivity" = none)
    (h : constructM (fuel + 1) pl (.objv []) (some (.objv fs)) none s
      = .ok (cid, s')) :
    (∃ cp, alookup s'.comps cid = some cp ∧ cp.el_ = none) ∧
    ∀ f : Nat, disposeM (f + 1) cid s' = .error .thrown := by
  simp only [constructM.eq_def] at h
  simp only [mergeJ_emptyLeft, jlookupV, jsTruthy, hCE, hEl, hId, hName, hIC,
    hRTA, if_true] at h
  cases fuel with
  | zero => simp [initChildrenM, Bind.bind, Except.bind] at h
  | succ g =>
    simp only [initChildrenM, readyM, enableTouchActivityM, getComp, putComp,
      alookup_aset_self, ofOption, jlookupV, hCh, Bind.bind, Except.bind,
      Except.ok.injEq, Prod.mk.injEq] at h
    obtain ⟨rfl, rfl⟩ := h
    constructor
    · simp [alookup_aset_self]
    · intro f
      simp [disposeM, getComp, ofOption, alookup_aset_self, Bind.bind,
        Except.bind]

theorem c10_createEl_false_dispose_throws_witness :
    ∃ cid : Nat, ∃ s' : St,
      constructM 9 none (.objv [])
          (some (.objv [("createEl", .boolv false)])) none emptySt
        = .ok (cid, s') ∧
      (∃ cp, alookup s'.comps cid = some cp ∧ cp.el_ = none) ∧
      ∀ f : Nat, disposeM (f + 1) cid s' = .error .thrown := by
  rcases hE : constructM 9 none (.objv [])
      (some (.objv [("createEl", .boolv false)])) none emptySt with e | v
  · exact absurd hE (by
      simp +decide [constructM, initChildrenM, readyM, mergeJ, mergeOver,
        jlookupV, jsTruthy, getComp, putComp, ofOption, alookup, aset, emptySt,
        enableTouchActivityM, playerIdOf, Bind.bind, Except.bind, pure,
        Except.pure])
  · exact ⟨v.1, v.2, rfl,
      @c10_createEl_false_dispose_throws 8 none [("createEl", .boolv false)]
        emptySt v.1 v.2 rfl rfl rfl rfl rfl rfl rfl (hE.trans rfl)⟩

/-- Closed instance of the C2 theorem: disposing component `A` of `twoSt`. -/
theorem c2_dispose_clears_and_silences_witness :
    ∃ s' cp', disposeM 9 0 twoSt = .ok s' ∧ alookup s'.comps 0 = some cp' ∧
      cp'.children_ = none ∧ cp'.el_ = none ∧
      evTrigger 1 100 "x" false s' = .ok (logE s' (.trig 100 "x")) := by
  obtain ⟨cp', h1, h2, h3, h4⟩ :=
    @c2_dispose_clears_and_silences 9 0 100 twoSt _ (mkComp "A" (some 100))
      rfl rfl rfl
  exact ⟨_, cp', rfl, h1, h2, h3, h4 "x" 0⟩

/-- Closed instance of the C3 theorem: the ordered trace of disposing
component `A` of `twoSt`. -/
theorem c3_dispose_strict_order_witness :
    ∃ s', disposeM 9 0 twoSt = .ok s' ∧
    ∃ s₁ s₂ tHandlers tKids tDetach,
      evTrigger 8 100 "dispose" false twoSt = .ok s₁ ∧
      s₁.log = twoSt.log ++ Ev.trig 100 "dispose" :: tHandlers ∧
      (∀ ev ∈ tHandlers, ev.isInvoke = true) ∧
      disposeKids 8 (((mkComp "A" (some 100)).children_.getD []).reverse) s₁
        = .ok s₂ ∧
      s₂.log = s₁.log ++ tKids ∧
      s'.log = s₂.log ++ [Ev.childrenNulled 0, Ev.offAll 100] ++ tDetach ++
        [Ev.dataRemoved 100, Ev.elNulled 0] ∧
      (tDetach = [] ∨ tDetach = [Ev.detached 100]) ∧
      (tDetach = [Ev.detached 100] ↔
        ∃ elx p, alookup s₂.elems 100 = some elx ∧ elx.parent = some p) ∧
      (∃ cp', alookup s'.comps 0 = some cp' ∧ cp'.children_ = none ∧
        cp'.childIndex_ = none ∧ cp'.childNameIndex_ = none ∧
        cp'.el_ = none) :=
  ⟨_, rfl, @c3_dispose_strict_order 8 0 100 twoSt _ (mkComp "A" (some 100))
    rfl rfl rfl⟩

/-- Closed instance of the C4 theorem: queueing on a not-ready component,
synchronous invocation on a ready one, a drain of the queue `[5]`, and the
quiet drain of an absent queue. -/
theorem c4_ready_queue_semantics_witness :
    readyM 0 (some 7) c4QSt = .ok (putComp 0
      { c4Queued with readyQueue_ := some (c4Queued.readyQueue_.getD [] ++ [7]) }
      c4QSt) ∧
    readyM 0 (some 7) c4RSt = .ok (logE c4RSt (.invoke 7)) ∧
    (∃ s', triggerReadyM 9 0 c4QSt = .ok s' ∧
      (∃ t, s'.log = c4QSt.log ++ [5].map Ev.invoke ++ Ev.trig 100 "ready" :: t ∧
        ∀ ev ∈ t, ev.isInvoke = true) ∧
      ∃ cp', alookup s'.comps 0 = some cp' ∧ cp'.isReady_ = true ∧
        cp'.readyQueue_ = some []) ∧
    triggerReadyM 9 0 twoSt
      = .ok (putComp 0 { mkComp "A" (some 100) with isReady_ := true } twoSt) := by
  refine ⟨(c4_ready_queue_semantics 8 0 7 c4QSt c4Queued rfl).1 rfl,
    (c4_ready_queue_semantics 8 0 7 c4RSt c4Ready rfl).2.1 rfl,
    ⟨_, rfl, ?_⟩,
    (c4_ready_queue_semantics 8 0 7 twoSt (mkComp "A" (some 100)) rfl).2.2.2
      (Or.inr rfl)⟩
  exact (c4_ready_queue_semantics 8 0 7 c4QSt c4Queued rfl).2.2.1 [5] 100 _
    rfl rfl rfl rfl

/-- Closed instance of the C7 theorem: removing child 1 from parent 0 of
`c7St`. -/
theorem c7_removeChild_single_entry_witness :
    ∃ s', removeChildM 0 (.inr 1) c7St = .ok s' ∧
      [1].get? 0 = some 1 ∧ (∀ j, 0 < j → [1].get? j ≠ some 1) ∧
      (∃ cp', alookup s'.comps 0 = some cp' ∧
        cp'.children_ = some ([1].eraseIdx 0) ∧
        cp'.childIndex_ = some (aset [("C1", some 1)] c7Child.id_ none) ∧
        cp'.childNameIndex_
          = some (aset [("c", some 1)] (c7Child.name_.getD "null") none)) ∧
      alookup s'.comps 1 = some c7Child ∧
      s'.log = c7St.log ∧
      (∀ k, k ≠ 0 → alookup s'.comps k = alookup c7St.comps k) ∧
      (∀ ce cel, c7Child.el_ = some ce → alookup c7St.elems ce = some cel →
        alookup s'.elems ce =
          some (if cel.parent = some 100 then { cel with parent := none }
            else cel)) ∧
      (∀ x, (∀ ce, c7Child.el_ = some ce → x ≠ ce) →
        alookup s'.elems x = alookup c7St.elems x) :=
  (c7_removeChild_single_entry 0 1 c7St c7Parent rfl (by decide)).2.2 [1] 0
    c7Child [("C1", some 1)] [("c", some 1)] 100 rfl rfl rfl rfl rfl rfl
    (by intro ce hce; cases hce; rfl)

/-- Closed instance of the amended C8 theorem: adding a `foo` child under the
live parent of `c8Base` and retrieving it both ways. -/
theorem c8_addChild_retrievable_witness :
    ∃ cid s', addChildM 9 0 (.inl "foo") (.objv []) c8Base = .ok (cid, s') ∧
      getChildM 0 "foo" s' = .ok (some cid) ∧
      ∃ childCp, alookup s'.comps cid = some childCp ∧
        getChildByIdM 0 childCp.id_ s' = .ok (some cid) := by
  rcases hE : addChildM 9 0 (.inl "foo") (.objv []) c8Base with e | v
  · exact absurd hE (by
      simp +decide [addChildM, constructM, initChildrenM, readyM, addChildFinish,
        getComponentM, registerComponentM, registerBase, c8Base, mergeJ,
        mergeOver, toTitleCase, setFieldJ, jlookupV, jsTruthy, jStr, getComp,
        getElemM, ofOption, putComp, putElem, logE, alookup, aset, emptySt,
        mkComp, freshElem, enableTouchActivityM, playerIdOf, Bind.bind,
        Except.bind, pure, Except.pure])
  · exact ⟨v.1, v.2, rfl,
      @c8_addChild_retrievable 8 0 "foo" (.objv []) c8Base v.1 v.2
        (by decide) (by decide) (hE.trans rfl)⟩


/-- Closed instance of the C1 theorem: components `A` and `B` of `twoSt`
with handler 7. -/
theorem c1_cross_subscription_symmetry_witness :
    ∃ s₀, onCompM 0 (.compT 1) "evt" 7 twoSt = .ok s₀ ∧
      (∃ s₁ s₂, disposeM 9 1 s₀ = .ok s₁ ∧ disposeM 9 0 s₁ = .ok s₂) ∧
      (∃ s₁ s₂, disposeM 9 0 s₀ = .ok s₁ ∧
        evTrigger 9 101 "evt" false s₁ = .ok s₂ ∧
        invokeCount 7 s₂.log = invokeCount 7 twoSt.log) ∧
      (∃ s₃, evTrigger 9 101 "evt" false s₀ = .ok s₃ ∧
        invokeCount 7 s₃.log = invokeCount 7 twoSt.log + 1) :=
  c1_cross_subscription_symmetry (by decide) (by decide) (by decide)
    rfl rfl rfl rfl rfl rfl rfl rfl
